import Mathlib

/-!
Verification of the OpenAPI breaking-change comparator
(`scripts/compare-openapi-breaking.py`).

The script is embedded shallowly: JSON values become the inductive `Json`;
Python dictionaries are association lists whose keys are unique in every
document produced by `json.load`; the recursive comparator `schema_breaks`
and the resolver `resolve_ref` are fuel-indexed (a result of `none` means
the fuel ran out, i.e. the Python recursion is still running at that
depth); a Python exception (`TypeError`, `AttributeError`, ...) becomes an
`Except.error`.  Python-specific semantics (truthiness, `set` construction
raising on unhashable members, `sorted` raising on unorderable members,
`==` identifying `bool` with `int`, f-string rendering via `str`/`repr`)
are modelled by the `py*` helpers below.
-/

/-- A JSON value as produced by `json.load`: numbers are restricted to the
integer fragment, which is the only fragment the comparator's logic ever
distinguishes. -/
inductive Json where
  | null
  | bool (b : Bool)
  | num (n : Int)
  | str (s : String)
  | arr (elems : List Json)
  | obj (entries : List (String × Json))

namespace Json

/-- Python truthiness of a JSON value (`if x:` / `x or y`). -/
def truthy : Json → Bool
  | .null => false
  | .bool b => b
  | .num n => n != 0
  | .str s => s != ""
  | .arr l => !l.isEmpty
  | .obj l => !l.isEmpty

/-- Python `x or y`. -/
def pyOr (a b : Json) : Json := if truthy a then a else b

/-- Whether the value is a Python `dict` (`isinstance(x, dict)`). -/
def isObj : Json → Bool
  | .obj _ => true
  | _ => false

/-- Hashability in Python: scalars are hashable, lists and dicts are not. -/
def hashable : Json → Bool
  | .arr _ => false
  | .obj _ => false
  | _ => true

/-- First value stored under key `k` (Python dicts have unique keys, so the
first match is the dict entry). -/
def listFind? (es : List (String × Json)) (k : String) : Option Json :=
  match es with
  | [] => none
  | (k2, v) :: rest => if k2 == k then some v else listFind? rest k

/-- Python `d.get(k)` on a value known to be a dict (returns `None` when the
key is absent). -/
def jGet (j : Json) (k : String) : Json :=
  match j with
  | .obj es => (listFind? es k).getD .null
  | _ => .null

/-- Python `k in d` membership for a dict. -/
def hasKey (j : Json) (k : String) : Bool :=
  match j with
  | .obj es => es.any (fun e => e.1 == k)
  | _ => false

end Json

/-! ### Python `==`

`pyEq` mirrors Python equality on JSON values: `bool` and `int` compare
numerically (`True == 1`), strings structurally, lists elementwise, dicts
by size plus key-wise value equality. -/

/-- Scan of a dict's entries for a key `k` whose value satisfies `p` (the
value-equality test of Python dict `==`). -/
def pyFindWith (k : String) (p : Json → Bool) : List (String × Json) → Bool
  | [] => false
  | (k2, v2) :: rest => (k == k2 && p v2) || pyFindWith k p rest

mutual
def pyEq : Json → Json → Bool
  | .null, b => match b with | .null => true | _ => false
  | .bool a, b =>
    match b with
    | .bool c => a == c
    | .num n => (if a then (1 : Int) else 0) == n
    | _ => false
  | .num a, b =>
    match b with
    | .num c => a == c
    | .bool c => a == (if c then (1 : Int) else 0)
    | _ => false
  | .str a, b => match b with | .str c => a == c | _ => false
  | .arr as, b => match b with | .arr bs => pyEqList as bs | _ => false
  | .obj as, b =>
    match b with
    | .obj bs => as.length == bs.length && pyEqSub as bs
    | _ => false

def pyEqList : List Json → List Json → Bool
  | [], bs => bs.isEmpty
  | a :: as, bs =>
    match bs with
    | b :: brest => pyEq a b && pyEqList as brest
    | [] => false

def pyEqSub : List (String × Json) → List (String × Json) → Bool
  | [], _ => true
  | (k, v) :: rest, other => pyFindWith k (pyEq v) other && pyEqSub rest other
end

theorem sizeOf_mem_list {x : Json} {xs : List Json} (h : x ∈ xs) :
    sizeOf x < sizeOf (Json.arr xs) := by
  have := List.sizeOf_lt_of_mem h
  simp only [Json.arr.sizeOf_spec]
  omega

theorem sizeOf_mem_entries {k : String} {v : Json} {es : List (String × Json)}
    (h : (k, v) ∈ es) : sizeOf v < sizeOf (Json.obj es) := by
  have h1 := List.sizeOf_lt_of_mem h
  have h2 : sizeOf (k, v) = 1 + sizeOf k + sizeOf v := rfl
  simp only [Json.obj.sizeOf_spec]
  omega

/-- Auxiliary: list reflexivity of `pyEqList` from member reflexivity. -/
theorem pyEqList_refl_of (xs : List Json) (h : ∀ x ∈ xs, pyEq x x = true) :
    pyEqList xs xs = true := by
  induction xs with
  | nil => rw [pyEqList]; rfl
  | cons x rest ih =>
    rw [pyEqList]
    have hx := h x (by simp)
    have hr := ih (fun y hy => h y (by simp [hy]))
    simp [hx, hr]

/-- Auxiliary: an entry of a dict is found by `pyFindWith` once its value is
self-equal. -/
theorem pyFindWith_self (k : String) (v : Json) (es : List (String × Json))
    (hmem : (k, v) ∈ es) (hv : pyEq v v = true) : pyFindWith k (pyEq v) es = true := by
  induction es with
  | nil => simp at hmem
  | cons e rest ih =>
    obtain ⟨k2, v2⟩ := e
    rw [pyFindWith]
    rcases List.mem_cons.mp hmem with h | h
    · obtain ⟨h1, h2⟩ := Prod.mk.injEq .. ▸ h
      subst h1; subst h2
      simp [hv]
    · simp [ih h]

theorem pyEqSub_refl_of (es : List (String × Json))
    (h : ∀ kv ∈ es, pyEq kv.2 kv.2 = true) : pyEqSub es es = true := by
  have aux : ∀ l : List (String × Json), (∀ kv ∈ l, kv ∈ es) →
      pyEqSub l es = true := by
    intro l
    induction l with
    | nil => intro; rw [pyEqSub]
    | cons kv rest ih =>
      intro hsub
      obtain ⟨k, v⟩ := kv
      rw [pyEqSub]
      have hmem : (k, v) ∈ es := hsub _ (by simp)
      have hv : pyEq v v = true := h _ hmem
      simp [pyFindWith_self k v es hmem hv, ih (fun x hx => hsub x (by simp [hx]))]
  exact aux es (fun _ hx => hx)

/-- Python `x == x` holds for every JSON value. -/
theorem pyEq_refl (a : Json) : pyEq a a = true := by
  have H : ∀ n, ∀ a : Json, sizeOf a ≤ n → pyEq a a = true := by
    intro n
    induction n using Nat.strong_induction_on with
    | _ n ih =>
      intro a hle
      match a with
      | .null => rw [pyEq]
      | .bool b => rw [pyEq]; simp
      | .num m => rw [pyEq]; simp
      | .str s => rw [pyEq]; simp
      | .arr xs =>
        rw [pyEq]
        refine pyEqList_refl_of xs (fun x hx => ?_)
        have hsz := sizeOf_mem_list hx
        exact ih (sizeOf x) (by omega) x le_rfl
      | .obj es =>
        rw [pyEq]
        have hsub : pyEqSub es es = true := by
          refine pyEqSub_refl_of es (fun kv hkv => ?_)
          obtain ⟨k, v⟩ := kv
          have hsz := sizeOf_mem_entries hkv
          exact ih (sizeOf v) (by omega) v le_rfl
        simp [hsub]
  exact H (sizeOf a) a le_rfl

/-! ### Python `<` and `sorted`

`pyLt` returns `none` when Python would raise `TypeError` (`<` unsupported
between the operand types): numbers and booleans compare numerically,
strings by code point; `None` and cross-type pairs are unorderable.  (The
comparator only ever sorts elements drawn from Python sets, hence only
hashable scalars reach `pyLt`.) -/

/-- Numeric view of a value for comparison purposes (`True == 1`). -/
def toNum? : Json → Option Int
  | .bool b => some (if b then 1 else 0)
  | .num n => some n
  | _ => none

/-- Lexicographic strict order on character lists by code point, as Python
compares strings. -/
def lexLt : List Char → List Char → Bool
  | _, [] => false
  | [], _ :: _ => true
  | a :: as, b :: bs => decide (a < b) || (a == b && lexLt as bs)

def strLtB (a b : String) : Bool := lexLt a.data b.data

def pyLt (a b : Json) : Option Bool :=
  match toNum? a, toNum? b with
  | some x, some y => some (decide (x < y))
  | _, _ =>
    match a, b with
    | .str x, .str y => some (strLtB x y)
    | _, _ => none

/-- Total `≤` used by the model's sort; it agrees with Python's order on
every pair `sorted` actually compares (pairwise orderable inputs). -/
def pyLeB (a b : Json) : Bool := !((pyLt b a).getD false)

/-- Insertion of one element into a sorted list. -/
def insertLe {α : Type} (le : α → α → Bool) (x : α) : List α → List α
  | [] => [x]
  | y :: ys => if le x y then x :: y :: ys else y :: insertLe le x ys

/-- Insertion sort; Python's `sorted` on pairwise-orderable, pairwise-distinct
inputs produces the same list. -/
def sortLe {α : Type} (le : α → α → Bool) : List α → List α
  | [] => []
  | x :: xs => insertLe le x (sortLe le xs)

/-- Each element of a Python set is comparable (equal or orderable) with
every other; `sorted` raises `TypeError` otherwise. -/
def allPairsComparable (xs : List Json) : Bool :=
  xs.all (fun a => xs.all (fun b => pyEq a b || (pyLt a b).isSome))

/-- Python `sorted` on a list of set members: `TypeError` when two members
are unorderable, the sorted list otherwise. -/
def sortedE (xs : List Json) : Except String (List Json) :=
  if allPairsComparable xs then .ok (sortLe pyLeB xs) else .error "TypeError"

/-- Deduplication keeping the first occurrence, under Python `==` — the
membership semantics of `set`; `seen` holds the members already kept. -/
def pyDedupAux (seen : List Json) : List Json → List Json
  | [] => []
  | x :: xs =>
    if seen.any (fun y => pyEq y x) then pyDedupAux seen xs
    else x :: pyDedupAux (x :: seen) xs

def pyDedup (xs : List Json) : List Json := pyDedupAux [] xs

/-- Python set difference on deduplicated member lists. -/
def pyDiff (xs ys : List Json) : List Json :=
  xs.filter (fun x => !ys.any (fun y => pyEq x y))

/-- Python set intersection on deduplicated member lists. -/
def pyInter (xs ys : List Json) : List Json :=
  xs.filter (fun x => ys.any (fun y => pyEq x y))

/-- Iterating a Python value: lists yield elements, strings their
one-character substrings, dicts their keys; scalars are not iterable. -/
def pyIter : Json → Option (List Json)
  | .arr xs => some xs
  | .str s => some (s.data.map (fun c => Json.str (String.mk [c])))
  | .obj es => some (es.map (fun e => Json.str e.1))
  | _ => none

/-- Python `set(x)`: `TypeError` when `x` is not iterable or contains an
unhashable member, the member list (first occurrences) otherwise. -/
def pySet (j : Json) : Except String (List Json) :=
  match pyIter j with
  | none => .error "TypeError"
  | some xs => if xs.all Json.hashable then .ok (pyDedup xs) else .error "TypeError"

/-! ### String-only set pipeline

Dict keys and hence HTTP-method names, status codes and path-item keys are
always strings; Python sorts and diffs them without any possibility of a
`TypeError`. -/

def strLeB (a b : String) : Bool := !strLtB b a

def sortStr (xs : List String) : List String := sortLe strLeB xs

def strDiff (xs ys : List String) : List String := xs.filter (fun x => !ys.contains x)

def strInter (xs ys : List String) : List String := xs.filter (fun x => ys.contains x)

/-! ### ASCII case mapping and other string helpers -/

/-- ASCII lower-casing of one character (Python's `str.lower` restricted to
the ASCII keys the script handles). -/
def charLower (c : Char) : Char :=
  if 'A' ≤ c && c ≤ 'Z' then Char.ofNat (c.toNat + 32) else c

/-- ASCII upper-casing of one character. -/
def charUpper (c : Char) : Char :=
  if 'a' ≤ c && c ≤ 'z' then Char.ofNat (c.toNat - 32) else c

def pyLower (s : String) : String := String.mk (s.data.map charLower)

def pyUpper (s : String) : String := String.mk (s.data.map charUpper)

/-- Python `s.startswith(p)`. -/
def strStartsWith (s p : String) : Bool := p.data.isPrefixOf s.data

/-- Python `s[n:]`. -/
def strDrop (s : String) (n : Nat) : String := String.mk (s.data.drop n)

/-- Python `"a/b".split("/")` on the character list: `""` splits to `[""]`,
separators at the ends produce empty fields. -/
def splitCharAux (sep : Char) : List Char → List (List Char)
  | [] => [[]]
  | c :: cs =>
    match splitCharAux sep cs with
    | [] => [[]]
    | h :: t => if c == sep then [] :: h :: t else (c :: h) :: t

def splitSlash (s : String) : List String :=
  (splitCharAux '/' s.data).map String.mk

/-! ### Python `str` and `repr` rendering (for f-string interpolation) -/

mutual
/-- Python `repr` of a JSON value (string escapes are not modelled; no
message the comparator builds depends on them). -/
def pyRepr : Json → String
  | .null => "None"
  | .bool b => if b then "True" else "False"
  | .num n => toString n
  | .str s => "'" ++ s ++ "'"
  | .arr xs => "[" ++ reprJoin xs ++ "]"
  | .obj es => "\x7b" ++ reprJoinEntries es ++ "\x7d"

def reprJoin : List Json → String
  | [] => ""
  | [x] => pyRepr x
  | x :: y :: rest => pyRepr x ++ ", " ++ reprJoin (y :: rest)

def reprJoinEntries : List (String × Json) → String
  | [] => ""
  | [(k, v)] => "'" ++ k ++ "': " ++ pyRepr v
  | (k, v) :: e :: rest =>
      "'" ++ k ++ "': " ++ pyRepr v ++ ", " ++ reprJoinEntries (e :: rest)
end

/-- Python `str` of a JSON value, as f-strings render it. -/
def pyStr : Json → String
  | .str s => s
  | j => pyRepr j

/-! ### Pointer resolution (`resolve_ref`, script lines 6–21)

The `seen` set is threaded through the chain of `$ref` hops exactly as the
script mutates its `seen` argument.  The fuel bounds the chain length; the
script's chain always terminates (each hop adds a new pointer string from
the finite document), so any fuel at least the number of distinct pointers
plus one reproduces the Python result. -/

/-- Document walk over the pointer's `/`-separated tokens (`for token in
ref[2:].split("/")`); `none` when a segment is missing or a node is not a
dict. -/
def walkTokens : List String → Json → Option Json
  | [], node => some node
  | t :: ts, node =>
    match node with
    | .obj es =>
      match Json.listFind? es t with
      | some v => walkTokens ts v
      | none => none
    | _ => none

def resolve_ref : Nat → Json → Json → List String → Option Json
  | 0, _, _, _ => none
  | fuel+1, schema, doc, seen =>
    match schema with
    | .obj es =>
      match Json.listFind? es "$ref" with
      | some (.str ref) =>
        if strStartsWith ref "#/" then
          if seen.contains ref then some schema
          else
            match walkTokens (splitSlash (strDrop ref 2)) doc with
            | none => some schema
            | some node => resolve_ref fuel node doc (ref :: seen)
        else some schema
      | _ => some schema
    | _ => some schema

/-! ### The comparator's monad shape

`Option (Except String (List String))`: `none` is exhausted fuel (the
Python recursion still running), `some (.error e)` an uncaught Python
exception, `some (.ok fs)` the findings list. -/

abbrev CmpRes := Option (Except String (List String))

def okF (fs : List String) : CmpRes := some (.ok fs)

/-- Sequencing with accumulation: the left result's findings precede the
right's; an exception or exhausted fuel on the left pre-empts the right,
matching Python's sequential evaluation. -/
def catF (x y : CmpRes) : CmpRes :=
  match x with
  | none => none
  | some (.error e) => some (.error e)
  | some (.ok a) =>
    match y with
    | none => none
    | some (.error e) => some (.error e)
    | some (.ok b) => some (.ok (a ++ b))

/-- Propagation of a Python exception out of a sub-computation. -/
def withE {α : Type} (x : Except String α) (k : α → CmpRes) : CmpRes :=
  match x with
  | .error e => some (.error e)
  | .ok a => k a

/-! ### Schema comparison (`schema_breaks`, script lines 24–81) -/

/-- Python indexing `container[key]`: dict lookup by `==` on keys, list and
string indexing by integer (with negative indices), `TypeError`/`KeyError`/
`IndexError` otherwise. -/
def pySubscript (container key : Json) : Except String Json :=
  match container with
  | .obj es =>
    match es.find? (fun e => pyEq (.str e.1) key) with
    | some e => .ok e.2
    | none => .error "KeyError"
  | .arr xs =>
    match toNum? key with
    | some i =>
      if 0 ≤ i && i < xs.length then .ok (xs.getD i.toNat .null)
      else if -(xs.length : Int) ≤ i && i < 0 then .ok (xs.getD (xs.length + i).toNat .null)
      else .error "IndexError"
    | none => .error "TypeError"
  | .str s =>
    match toNum? key with
    | some i =>
      if 0 ≤ i && i < s.data.length then .ok (.str (String.mk [s.data.getD i.toNat ' ']))
      else if -(s.data.length : Int) ≤ i && i < 0 then
        .ok (.str (String.mk [s.data.getD ((s.data.length : Int) + i).toNat ' ']))
      else .error "IndexError"
    | none => .error "TypeError"
  | _ => .error "TypeError"

/-- Script line 52: `b.get("properties") or {}`. -/
def propsOf (j : Json) : Json := Json.pyOr (j.jGet "properties") (.obj [])

/-- Script lines 38–43: `sorted(set(b_enum) - set(c_enum))` when both
`enum` fields are lists, no enum comparison otherwise. -/
def enumRemoved (b c : Json) : Except String (List Json) :=
  match b.jGet "enum", c.jGet "enum" with
  | .arr be, .arr ce => do
    let bs ← pySet (.arr be)
    let cs ← pySet (.arr ce)
    sortedE (pyDiff bs cs)
  | _, _ => .ok []

/-- Script lines 46–48: `sorted(set(b.get("required") or []) - set(...))`. -/
def requiredRemoved (b c : Json) : Except String (List Json) := do
  let bs ← pySet (Json.pyOr (b.jGet "required") (.arr []))
  let cs ← pySet (Json.pyOr (c.jGet "required") (.arr []))
  sortedE (pyDiff bs cs)

/-- Script line 55: `sorted(set(b_props) - set(c_props))`. -/
def propsRemoved (b c : Json) : Except String (List Json) := do
  let bs ← pySet (propsOf b)
  let cs ← pySet (propsOf c)
  sortedE (pyDiff bs cs)

/-- Script line 59: `sorted(set(b_props) & set(c_props))`. -/
def propsCommon (b c : Json) : Except String (List Json) := do
  let bs ← pySet (propsOf b)
  let cs ← pySet (propsOf c)
  sortedE (pyInter bs cs)

/-- Script lines 59–68: the recursion over properties present in both
schemas, with `rec` standing for the recursive `schema_breaks` call at one
less fuel. -/
def propLoop (rec : Json → Json → String → CmpRes) (bP cP : Json) (ctx : String) :
    List Json → CmpRes
  | [] => okF []
  | q :: qs =>
    withE (pySubscript bP q) fun bv =>
    withE (pySubscript cP q) fun cv =>
    catF (rec bv cv (ctx ++ "." ++ pyStr q)) (propLoop rec bP cP ctx qs)

/-- Script lines 45–68: the object-like block, guarded by
`(b_type == "object") or ("properties" in b)`. -/
def objBlock (rec : Json → Json → String → CmpRes) (b c : Json) (ctx : String) : CmpRes :=
  if pyEq (b.jGet "type") (.str "object") || b.hasKey "properties" then
    withE (requiredRemoved b c) fun reqRem =>
    let reqMsgs :=
      if reqRem.isEmpty then []
      else [ctx ++ ": required fields removed: " ++ pyRepr (.arr reqRem)]
    withE (propsRemoved b c) fun remProps =>
    let remMsgs :=
      if remProps.isEmpty then []
      else [ctx ++ ": response properties removed: " ++ pyRepr (.arr remProps)]
    withE (propsCommon b c) fun common =>
    catF (okF (reqMsgs ++ remMsgs)) (propLoop rec (propsOf b) (propsOf c) ctx common)
  else okF []

/-- Script lines 70–79: the array block, recursing into `items` when both
`type` fields equal `"array"`. -/
def arrBlock (rec : Json → Json → String → CmpRes) (b c : Json) (ctx : String) : CmpRes :=
  if pyEq (b.jGet "type") (.str "array") && pyEq (c.jGet "type") (.str "array") then
    rec (Json.pyOr (b.jGet "items") (.obj [])) (Json.pyOr (c.jGet "items") (.obj [])) (ctx ++ "[]")
  else okF []

/-- Script lines 24–81 (`schema_breaks`), fuel-indexed: each recursive call
descends at one less fuel; both sides are resolved with a fresh `seen` set,
exactly as the script calls `resolve_ref` with `seen=None`. -/
def schema_breaks : Nat → Json → Json → Json → Json → String → CmpRes
  | 0, _, _, _, _, _ => none
  | fuel+1, baseSchema, currSchema, baseDoc, currDoc, ctx =>
    match resolve_ref (fuel+1) (Json.pyOr baseSchema (.obj [])) baseDoc [],
          resolve_ref (fuel+1) (Json.pyOr currSchema (.obj [])) currDoc [] with
    | some b, some c =>
      if !(b.isObj && c.isObj) then okF []
      else
        let bT := b.jGet "type"
        let cT := c.jGet "type"
        if bT.truthy && cT.truthy && !pyEq bT cT then
          okF [ctx ++ ": schema type changed from " ++ pyStr bT ++ " to " ++ pyStr cT]
        else
          withE (enumRemoved b c) fun enumRem =>
          let enumMsgs :=
            if enumRem.isEmpty then []
            else [ctx ++ ": enum values removed: " ++ pyRepr (.arr enumRem)]
          catF (okF enumMsgs)
            (catF (objBlock (fun x y t => schema_breaks fuel x y baseDoc currDoc t) b c ctx)
                  (arrBlock (fun x y t => schema_breaks fuel x y baseDoc currDoc t) b c ctx))
    | _, _ => none

/-! ### Operation and document comparison (`required_params`, `main`,
script lines 84–173)

`main`'s I/O boundary (argv, file loading, printing) is modelled by a pure
function over the argument list and the two already-loaded documents; each
printed line is recorded with the channel it is written to. -/

/-- Python `d.get(k, default)` — `AttributeError` when `d` is not a dict. -/
def pyDictGetD (j : Json) (k : String) (d : Json) : Except String Json :=
  match j with
  | .obj es => .ok ((Json.listFind? es k).getD d)
  | _ => .error "AttributeError"

/-- Python `d.get(k)` with `None` default — `AttributeError` when `d` is
not a dict. -/
def pyDictGet (j : Json) (k : String) : Except String Json := pyDictGetD j k .null

/-- Python `d.get(key)` for an arbitrary (JSON-valued) key. -/
def pyDictGetJ (j key : Json) : Except String Json :=
  match j with
  | .obj es => .ok (((es.find? (fun e => pyEq (.str e.1) key)).map Prod.snd).getD .null)
  | _ => .error "AttributeError"

/-- Python `d.items()` — `AttributeError` when `d` is not a dict. -/
def pyItems (j : Json) : Except String (List (String × Json)) :=
  match j with
  | .obj es => .ok es
  | _ => .error "AttributeError"

/-- Python `d.keys()` as a list — `AttributeError` when `d` is not a dict. -/
def pyKeys (j : Json) : Except String (List String) :=
  match j with
  | .obj es => .ok (es.map Prod.fst)
  | _ => .error "AttributeError"

/-- Python `p is True` — exactly the boolean `True`, not `1`. -/
def isTrueJ : Json → Bool
  | .bool true => true
  | _ => false

/-- Python tuple equality on `(location, name)` parameter keys. -/
def pyEqPair (a b : Json × Json) : Bool := pyEq a.1 b.1 && pyEq a.2 b.2

/-- Python tuple `<`: first components by `==`/`<`, then second. -/
def pyLtPair (a b : Json × Json) : Option Bool :=
  if pyEq a.1 b.1 then pyLt a.2 b.2 else pyLt a.1 b.1

def pyLePairB (a b : Json × Json) : Bool := !((pyLtPair b a).getD false)

def pairsComparable (xs : List (Json × Json)) : Bool :=
  xs.all (fun a => xs.all (fun b => pyEqPair a b || (pyLtPair a b).isSome))

/-- Python `sorted` on a list of parameter-key tuples. -/
def sortedPairsE (xs : List (Json × Json)) : Except String (List (Json × Json)) :=
  if pairsComparable xs then .ok (sortLe pyLePairB xs) else .error "TypeError"

def dedupPairAux (seen : List (Json × Json)) : List (Json × Json) → List (Json × Json)
  | [] => []
  | x :: xs =>
    if seen.any (fun y => pyEqPair y x) then dedupPairAux seen xs
    else x :: dedupPairAux (x :: seen) xs

def diffPair (xs ys : List (Json × Json)) : List (Json × Json) :=
  xs.filter (fun x => !ys.any (fun y => pyEqPair x y))

/-- Script lines 84–90 (`required_params`): the set of `(in, name)` pairs of
parameters marked `required is True`; adding an unhashable component to the
set raises `TypeError`, as does iterating a non-iterable `parameters`. -/
def reqParamsLoop : List Json → Except String (List (Json × Json))
  | [] => .ok []
  | p :: rest =>
    if p.isObj && isTrueJ (p.jGet "required") then
      if (p.jGet "in").hashable && (p.jGet "name").hashable then
        (reqParamsLoop rest).map (fun l => (p.jGet "in", p.jGet "name") :: l)
      else .error "TypeError"
    else reqParamsLoop rest

def required_params (op : Json) : Except String (List (Json × Json)) := do
  let pv ← pyDictGet op "parameters"
  match pyIter (Json.pyOr pv (.arr [])) with
  | none => .error "TypeError"
  | some ps => (reqParamsLoop ps).map (fun l => dedupPairAux [] l)

/-- HTTP-method vocabulary of script line 113. -/
def httpMethods : List String :=
  ["get", "post", "put", "patch", "delete", "options", "head", "trace"]

/-- Media-type loop of script lines 153–164: per shared media type, compare
the two `schema` fields. -/
def mediaLoop (fuel : Nat) (baseDoc currDoc bContent cContent : Json)
    (m : String) (p : Json) (code : String) : List Json → CmpRes
  | [] => okF []
  | mt :: mts =>
    withE (pyDictGetJ bContent mt) fun bEntry =>
    withE (pyDictGet (Json.pyOr bEntry (.obj [])) "schema") fun bSchemaRaw =>
    withE (pyDictGetJ cContent mt) fun cEntry =>
    withE (pyDictGet (Json.pyOr cEntry (.obj [])) "schema") fun cSchemaRaw =>
    catF
      (schema_breaks fuel (Json.pyOr bSchemaRaw (.obj [])) (Json.pyOr cSchemaRaw (.obj []))
        baseDoc currDoc
        (pyUpper m ++ " " ++ pyStr p ++ " " ++ code ++ " [" ++ pyStr mt ++ "]"))
      (mediaLoop fuel baseDoc currDoc bContent cContent m p code mts)

/-- Response-code loop of script lines 141–164: per shared success code,
removed media types then shared media types. -/
def codeLoop (fuel : Nat) (baseDoc currDoc bResponses cResponses : Json)
    (m : String) (p : Json) : List String → CmpRes
  | [] => okF []
  | code :: codes =>
    withE (pyDictGet bResponses code) fun bRespRaw =>
    let bResp := Json.pyOr bRespRaw (.obj [])
    withE (pyDictGet cResponses code) fun cRespRaw =>
    let cResp := Json.pyOr cRespRaw (.obj [])
    withE (pyDictGet bResp "content") fun bContentRaw =>
    let bContent := Json.pyOr bContentRaw (.obj [])
    withE (pyDictGet cResp "content") fun cContentRaw =>
    let cContent := Json.pyOr cContentRaw (.obj [])
    withE (pySet bContent) fun bMedia =>
    withE (pySet cContent) fun cMedia =>
    withE (sortedE (pyDiff bMedia cMedia)) fun removedMedia =>
    let mediaMsgs := removedMedia.map (fun mt =>
      "Removed response media type " ++ pyStr mt ++ " for " ++ pyUpper m ++ " "
        ++ pyStr p ++ " " ++ code)
    withE (sortedE (pyInter bMedia cMedia)) fun sharedMedia =>
    catF (okF mediaMsgs)
      (catF (mediaLoop fuel baseDoc currDoc bContent cContent m p code sharedMedia)
            (codeLoop fuel baseDoc currDoc bResponses cResponses m p codes))

/-- Comparison of one operation present in both documents (script lines
122–164): added required parameters, request body becoming required,
removed success responses, then the per-code loop. -/
def perOpF (fuel : Nat) (baseDoc currDoc b c : Json) (m : String) (p : Json) : CmpRes :=
  withE (required_params c) fun cParams =>
  withE (required_params b) fun bParams =>
  withE (sortedPairsE (diffPair cParams bParams)) fun newReq =>
  let addedMsgs := newReq.map (fun q =>
    "Added required parameter on " ++ pyUpper m ++ " " ++ pyStr p ++ ": "
      ++ pyStr q.1 ++ ":" ++ pyStr q.2)
  withE (pyDictGet b "requestBody") fun bRB =>
  withE (pyDictGet (Json.pyOr bRB (.obj [])) "required") fun bReqd =>
  withE (pyDictGet c "requestBody") fun cRB =>
  withE (pyDictGet (Json.pyOr cRB (.obj [])) "required") fun cReqd =>
  let rbMsgs :=
    if !bReqd.truthy && cReqd.truthy then
      ["Request body became required: " ++ pyUpper m ++ " " ++ pyStr p]
    else []
  withE (pyDictGet b "responses") fun bResponsesRaw =>
  let bResponses := Json.pyOr bResponsesRaw (.obj [])
  withE (pyKeys bResponses) fun bCodes =>
  let bSuccess := (bCodes.filter (fun s => strStartsWith s "2")).dedup
  withE (pyDictGet c "responses") fun cResponsesRaw =>
  let cResponses := Json.pyOr cResponsesRaw (.obj [])
  withE (pyKeys cResponses) fun cCodes =>
  let cSuccess := (cCodes.filter (fun s => strStartsWith s "2")).dedup
  let removedMsgs := (sortStr (strDiff bSuccess cSuccess)).map (fun code =>
    "Removed success response " ++ code ++ " on " ++ pyUpper m ++ " " ++ pyStr p)
  catF (okF (addedMsgs ++ rbMsgs ++ removedMsgs))
    (codeLoop fuel baseDoc currDoc bResponses cResponses m p
      (sortStr (strInter bSuccess cSuccess)))

/-- Loop over methods present in both path items (script lines 121–164). -/
def opLoop (fuel : Nat) (baseDoc currDoc : Json) (bOps cOps : List (String × Json))
    (p : Json) : List String → CmpRes
  | [] => okF []
  | m :: ms =>
    catF
      (perOpF fuel baseDoc currDoc ((Json.listFind? bOps m).getD .null)
        ((Json.listFind? cOps m).getD .null) m p)
      (opLoop fuel baseDoc currDoc bOps cOps p ms)

/-- Methods of a path item restricted to the HTTP vocabulary (script lines
115–116): keys whose lower-casing is a known method, original case kept. -/
def opsOf (item : Json) : Except String (List (String × Json)) :=
  (pyItems item).map (fun es => es.filter (fun kv => httpMethods.contains (pyLower kv.1)))

/-- Methods in the base item but not the current one, sorted (line 118). -/
def removedMethods (bOps cOps : List (String × Json)) : List String :=
  sortStr (strDiff (bOps.map Prod.fst).dedup (cOps.map Prod.fst).dedup)

/-- Methods in both items, sorted (line 121). -/
def sharedMethods (bOps cOps : List (String × Json)) : List String :=
  sortStr (strInter (bOps.map Prod.fst).dedup (cOps.map Prod.fst).dedup)

/-- Comparison of one path present in both documents (script lines
114–164): removed operations then the per-method loop. -/
def perPathF (fuel : Nat) (baseDoc currDoc basePaths currPaths : Json) (p : Json) : CmpRes :=
  withE (pySubscript basePaths p) fun bItem =>
  withE (opsOf bItem) fun bOps =>
  withE (pySubscript currPaths p) fun cItem =>
  withE (opsOf cItem) fun cOps =>
  catF
    (okF ((removedMethods bOps cOps).map (fun meth =>
      "Removed operation: " ++ pyUpper meth ++ " " ++ pyStr p)))
    (opLoop fuel baseDoc currDoc bOps cOps p (sharedMethods bOps cOps))

/-- Loop over paths present in both documents. -/
def pathLoop (fuel : Nat) (baseDoc currDoc basePaths currPaths : Json) : List Json → CmpRes
  | [] => okF []
  | p :: ps =>
    catF (perPathF fuel baseDoc currDoc basePaths currPaths p)
         (pathLoop fuel baseDoc currDoc basePaths currPaths ps)

/-- Script line 110: `sorted(set(base_paths) - set(curr_paths))`. -/
def removedPathList (basePaths currPaths : Json) : Except String (List Json) := do
  let bs ← pySet basePaths
  let cs ← pySet currPaths
  sortedE (pyDiff bs cs)

/-- Script line 114: `sorted(set(base_paths) & set(curr_paths))`. -/
def sharedPathList (basePaths currPaths : Json) : Except String (List Json) := do
  let bs ← pySet basePaths
  let cs ← pySet currPaths
  sortedE (pyInter bs cs)

/-- Document comparison of script lines 106–164: the `breaking` list built
by `main` after loading both documents. -/
def compareDocs (fuel : Nat) (base curr : Json) : CmpRes :=
  withE (pyDictGetD base "paths" (.obj [])) fun basePaths =>
  withE (pyDictGetD curr "paths" (.obj [])) fun currPaths =>
  withE (removedPathList basePaths currPaths) fun removed =>
  withE (sharedPathList basePaths currPaths) fun shared =>
  catF (okF (removed.map (fun q => "Removed path: " ++ pyStr q)))
       (pathLoop fuel base curr basePaths currPaths shared)

/-! ### CLI surface (script lines 98–177) -/

/-- Output channel of a printed line; the script's `print` writes to
standard output. -/
inductive Channel where
  | stdout
  | stderr
deriving DecidableEq

/-- The printed lines and the process exit status (`raise SystemExit(main())`). -/
structure CliOutcome where
  output : List (Channel × String)
  exitCode : Nat
deriving DecidableEq

/-- Script line 100's usage message. -/
def usageText : String :=
  "Usage: compare-openapi-breaking.py <base-spec.json> <current-spec.json>"

/-- Script lines 98–173 (`main`): `argv` is `sys.argv` (program name
included); the two documents stand for the parsed files `load` would
return, unused when the arity check fails. -/
def mainF (fuel : Nat) (argv : List String) (base curr : Json) :
    Option (Except String CliOutcome) :=
  if argv.length != 3 then some (.ok ⟨[(Channel.stdout, usageText)], 2⟩)
  else
    match compareDocs fuel base curr with
    | none => none
    | some (.error e) => some (.error e)
    | some (.ok breaking) =>
      if breaking.isEmpty then
        some (.ok ⟨[(Channel.stdout, "No breaking OpenAPI changes detected.")], 0⟩)
      else
        some (.ok ⟨(Channel.stdout, "Breaking OpenAPI changes detected:")
          :: breaking.map (fun item => (Channel.stdout, " - " ++ item)), 1⟩)

/-! ### Result-shape lemmas for the comparator monad -/

theorem catF_ok {x y : CmpRes} {fs : List String} (h : catF x y = some (.ok fs)) :
    ∃ a b, x = some (.ok a) ∧ y = some (.ok b) ∧ fs = a ++ b := by
  match x, y with
  | none, _ => simp [catF] at h
  | some (.error e), _ => simp [catF] at h
  | some (.ok a), none => simp [catF] at h
  | some (.ok a), some (.error e) => simp [catF] at h
  | some (.ok a), some (.ok b) =>
    refine ⟨a, b, rfl, rfl, ?_⟩
    simpa [catF] using h.symm

theorem catF_err {x y : CmpRes} {e : String} (h : catF x y = some (.error e)) :
    x = some (.error e) ∨ ∃ a, x = some (.ok a) ∧ y = some (.error e) := by
  match x, y with
  | none, _ => simp [catF] at h
  | some (.error e2), _ =>
    left
    simpa [catF] using h
  | some (.ok a), none => simp [catF] at h
  | some (.ok a), some (.error e2) =>
    right
    exact ⟨a, rfl, by simpa [catF] using h⟩
  | some (.ok a), some (.ok b) => simp [catF] at h

theorem withE_ok {α : Type} {x : Except String α} {k : α → CmpRes} {fs : List String}
    (h : withE x k = some (.ok fs)) : ∃ a, x = .ok a ∧ k a = some (.ok fs) := by
  match x with
  | .error e => simp [withE] at h
  | .ok a => exact ⟨a, rfl, h⟩

theorem withE_err {α : Type} {x : Except String α} {k : α → CmpRes} {e : String}
    (h : withE x k = some (.error e)) :
    x = .error e ∨ ∃ a, x = .ok a ∧ k a = some (.error e) := by
  match x with
  | .error e2 =>
    left
    simpa [withE] using h
  | .ok a => exact .inr ⟨a, rfl, h⟩

theorem withE_not_err {α : Type} {x : Except String α} {k : α → CmpRes}
    (hx : ∀ e, x ≠ .error e) (hk : ∀ a e, x = .ok a → k a ≠ some (.error e)) :
    ∀ e, withE x k ≠ some (.error e) := by
  intro e h
  rcases withE_err h with h1 | ⟨a, ha, hk2⟩
  · exact hx e h1
  · exact hk a e ha hk2

theorem catF_not_err {x y : CmpRes}
    (hx : ∀ e, x ≠ some (.error e)) (hy : ∀ e, y ≠ some (.error e)) :
    ∀ e, catF x y ≠ some (.error e) := by
  intro e h
  rcases catF_err h with h1 | ⟨a, _, h2⟩
  · exact hx e h1
  · exact hy e h2

/-- Members of a list never survive `pyDiff` against the same list. -/
theorem pyDiff_self (s : List Json) : pyDiff s s = [] := by
  refine List.filter_eq_nil_iff.mpr (fun x hx => ?_)
  simp only [Bool.not_eq_true', Bool.not_eq_false]
  exact List.any_eq_true.mpr ⟨x, hx, pyEq_refl x⟩

theorem sortedE_nil : sortedE [] = .ok [] := rfl

/-- Self-comparison of `enum` fields yields no removals (or a `TypeError`
from `set` construction). -/
theorem enumRemoved_self (b : Json) :
    enumRemoved b b = .ok [] ∨ ∃ e, enumRemoved b b = .error e := by
  unfold enumRemoved
  match b.jGet "enum" with
  | .arr be =>
    match h : pySet (.arr be) with
    | .error e => exact .inr ⟨e, by simp [h, bind, Except.bind]⟩
    | .ok s => left; simp [h, bind, Except.bind, pyDiff_self, sortedE_nil]
  | .null | .bool _ | .num _ | .str _ | .obj _ => left; rfl

theorem requiredRemoved_self (b : Json) :
    requiredRemoved b b = .ok [] ∨ ∃ e, requiredRemoved b b = .error e := by
  unfold requiredRemoved
  match h : pySet (Json.pyOr (b.jGet "required") (.arr [])) with
  | .error e => exact .inr ⟨e, by simp [h, bind, Except.bind]⟩
  | .ok s => left; simp [h, bind, Except.bind, pyDiff_self, sortedE_nil]

theorem propsRemoved_self (b : Json) :
    propsRemoved b b = .ok [] ∨ ∃ e, propsRemoved b b = .error e := by
  unfold propsRemoved
  match h : pySet (propsOf b) with
  | .error e => exact .inr ⟨e, by simp [h, bind, Except.bind]⟩
  | .ok s => left; simp [h, bind, Except.bind, pyDiff_self, sortedE_nil]

/-! ### Idempotence machinery -/

/-- The property loop comparing a schema against itself returns no findings
provided the recursive comparison does. -/
theorem propLoop_self {rec : Json → Json → String → CmpRes} {P : Json} {ctx : String}
    (hrec : ∀ x t fs, rec x x t = some (.ok fs) → fs = []) :
    ∀ qs fs, propLoop rec P P ctx qs = some (.ok fs) → fs = [] := by
  intro qs
  induction qs with
  | nil =>
    intro fs h
    simpa [propLoop, okF] using h.symm
  | cons q rest ih =>
    intro fs h
    rw [propLoop] at h
    obtain ⟨bv, hbv, h⟩ := withE_ok h
    obtain ⟨cv, hcv, h⟩ := withE_ok h
    obtain ⟨a, b, ha, hb, hab⟩ := catF_ok h
    have hvv : cv = bv := by rw [hbv] at hcv; exact (Except.ok.injEq .. ▸ hcv).symm
    subst hvv
    have h1 : a = [] := hrec _ _ _ ha
    have h2 : b = [] := ih b hb
    simp [hab, h1, h2]

/-- Self-comparison of the object-like block yields no findings apart from
what the (idempotent) recursion yields. -/
theorem objBlock_self {rec : Json → Json → String → CmpRes} {b : Json} {ctx : String}
    (hrec : ∀ x t fs, rec x x t = some (.ok fs) → fs = []) :
    ∀ fs, objBlock rec b b ctx = some (.ok fs) → fs = [] := by
  intro fs h
  unfold objBlock at h
  by_cases hcond : (pyEq (b.jGet "type") (.str "object") || b.hasKey "properties") = true
  · rw [if_pos hcond] at h
    rcases requiredRemoved_self b with hreq | ⟨e, hreq⟩
    swap
    · simp [hreq, withE] at h
    rw [hreq] at h
    simp only [withE, List.isEmpty_nil, if_true] at h
    rcases propsRemoved_self b with hrem | ⟨e, hrem⟩
    swap
    · simp [hrem, withE] at h
    rw [hrem] at h
    simp only [withE, List.isEmpty_nil, if_true] at h
    obtain ⟨common, hcommon, h⟩ := withE_ok h
    obtain ⟨a1, a2, ha1, ha2, hfs⟩ := catF_ok h
    have e1 : a1 = [] := by simpa [okF] using ha1.symm
    have e2 : a2 = [] := propLoop_self hrec common a2 ha2
    simp [hfs, e1, e2]
  · rw [if_neg hcond] at h
    simpa [okF] using h.symm

/-- Self-comparison of the array block yields no findings given an
idempotent recursion. -/
theorem arrBlock_self {rec : Json → Json → String → CmpRes} {b : Json} {ctx : String}
    (hrec : ∀ x t fs, rec x x t = some (.ok fs) → fs = []) :
    ∀ fs, arrBlock rec b b ctx = some (.ok fs) → fs = [] := by
  intro fs h
  unfold arrBlock at h
  by_cases hcond :
      (pyEq (b.jGet "type") (.str "array") && pyEq (b.jGet "type") (.str "array")) = true
  · rw [if_pos hcond] at h
    exact hrec _ _ _ h
  · rw [if_neg hcond] at h
    simpa [okF] using h.symm

theorem schema_breaks_self_aux :
    ∀ fuel X D ctx fs, schema_breaks fuel X X D D ctx = some (.ok fs) → fs = [] := by
  intro fuel
  induction fuel with
  | zero =>
    intro X D ctx fs h
    simp [schema_breaks] at h
  | succ n ih =>
    intro X D ctx fs h
    rw [schema_breaks] at h
    rcases hres : resolve_ref (n+1) (Json.pyOr X (.obj [])) D [] with _ | b
    · rw [hres] at h
      simp at h
    rw [hres] at h
    cases hib : b.isObj with
    | false =>
      simp [hib, okF] at h
      exact h
    | true =>
      simp only [hib, Bool.and_self, Bool.not_true, Bool.false_eq_true, if_false] at h
      rw [if_neg (by simp [pyEq_refl])] at h
      have hrec : ∀ x t fs2, schema_breaks n x x D D t = some (.ok fs2) → fs2 = [] :=
        fun x t fs2 hx => ih x D t fs2 hx
      rcases enumRemoved_self b with he | ⟨e, he⟩
      swap
      · simp [he, withE] at h
      rw [he] at h
      simp only [withE, List.isEmpty_nil, if_true] at h
      obtain ⟨a1, a2, ha1, ha2, hfs⟩ := catF_ok h
      obtain ⟨a3, a4, ha3, ha4, hfs2⟩ := catF_ok ha2
      have e1 : a1 = [] := by simpa [okF] using ha1.symm
      have e3 : a3 = [] := objBlock_self hrec a3 ha3
      have e4 : a4 = [] := arrBlock_self hrec a4 ha4
      simp [hfs, hfs2, e1, e3, e4]

/-- C5: idempotence — for every schema `X`, document `D` and context `ctx`,
whenever `schema_breaks(X, X, D, D, ctx)` completes normally it returns the
empty findings list. -/
theorem schema_breaks_idempotent (fuel : Nat) (X D : Json) (ctx : String)
    (fs : List String) (h : schema_breaks fuel X X D D ctx = some (.ok fs)) :
    fs = [] :=
  schema_breaks_self_aux fuel X D ctx fs h

/-- Witness for C5 at a concrete well-formed schema: the comparison of the
schema against itself completes and the theorem applies. -/
theorem schema_breaks_idempotent_witness :
    schema_breaks 3
        (.obj [("type", .str "object"),
               ("properties", .obj [("a", .obj [("type", .str "string")])]),
               ("required", .arr [.str "a"])])
        (.obj [("type", .str "object"),
               ("properties", .obj [("a", .obj [("type", .str "string")])]),
               ("required", .arr [.str "a"])])
        (.obj []) (.obj []) "GET /x 200 [application/json]" = some (.ok [])
      ∧ ([] : List String) = [] := by
  refine ⟨rfl, ?_⟩
  exact schema_breaks_idempotent 3
    (.obj [("type", .str "object"),
           ("properties", .obj [("a", .obj [("type", .str "string")])]),
           ("required", .arr [.str "a"])])
    (.obj []) "GET /x 200 [application/json]" [] rfl

/-- C7: a `$ref` whose pointer walk fails (missing segment or non-dict
node) resolves to the original node unchanged, without an error. -/
theorem resolve_ref_unresolvable (fuel : Nat) (es : List (String × Json))
    (doc : Json) (seen : List String) (ref : String)
    (href : Json.listFind? es "$ref" = some (.str ref))
    (hsw : strStartsWith ref "#/" = true)
    (hseen : seen.contains ref = false)
    (hwalk : walkTokens (splitSlash (strDrop ref 2)) doc = none) :
    resolve_ref (fuel+1) (.obj es) doc seen = some (.obj es) := by
  rw [resolve_ref]
  simp [href, hsw, hseen, hwalk]

/-- Witness for C7: `#/missing` does not resolve in the empty document and
the node comes back unchanged. -/
theorem resolve_ref_unresolvable_witness :
    resolve_ref 1 (.obj [("$ref", .str "#/missing")]) (.obj []) []
      = some (.obj [("$ref", .str "#/missing")]) :=
  resolve_ref_unresolvable 0 [("$ref", .str "#/missing")] (.obj []) [] "#/missing"
    rfl rfl rfl rfl

/-- C4: when both sides resolve to objects with truthy, differing `type`
fields, the comparison returns exactly the type-changed finding and
nothing else (no descent into enum, required, properties or items). -/
theorem schema_breaks_type_change (fuel : Nat) (bs cs bd cd : Json) (ctx : String)
    (b c : Json)
    (hb : resolve_ref (fuel+1) (Json.pyOr bs (.obj [])) bd [] = some b)
    (hc : resolve_ref (fuel+1) (Json.pyOr cs (.obj [])) cd [] = some c)
    (hbo : b.isObj = true) (hco : c.isObj = true)
    (hbt : (b.jGet "type").truthy = true) (hct : (c.jGet "type").truthy = true)
    (hne : pyEq (b.jGet "type") (c.jGet "type") = false) :
    schema_breaks (fuel+1) bs cs bd cd ctx =
      okF [ctx ++ ": schema type changed from " ++ pyStr (b.jGet "type")
            ++ " to " ++ pyStr (c.jGet "type")] := by
  rw [schema_breaks, hb, hc]
  simp [hbo, hco, hbt, hct, hne]

/-- Witness for C4: `string` → `number` on schemas that are deep objects;
one finding, without descent into their `properties`. -/
theorem schema_breaks_type_change_witness :
    schema_breaks 1
        (.obj [("type", .str "string"), ("properties", .obj [("x", .obj [])]),
               ("enum", .arr [.str "a"])])
        (.obj [("type", .str "number"), ("properties", .obj [("y", .obj [])]),
               ("enum", .arr [.str "b"])])
        (.obj []) (.obj []) "c"
      = okF ["c: schema type changed from string to number"] :=
  schema_breaks_type_change 0
    (.obj [("type", .str "string"), ("properties", .obj [("x", .obj [])]),
           ("enum", .arr [.str "a"])])
    (.obj [("type", .str "number"), ("properties", .obj [("y", .obj [])]),
           ("enum", .arr [.str "b"])])
    (.obj []) (.obj []) "c" _ _ rfl rfl rfl rfl rfl rfl rfl

/-- C3 counterexample: with one positional argument the script prints the
usage text to standard output — not to standard error as specified. -/
theorem main_usage_goes_to_stdout :
    mainF 0 ["compare-openapi-breaking.py", "base.json"] (.obj []) (.obj [])
        = some (.ok ⟨[(Channel.stdout, usageText)], 2⟩)
      ∧ Channel.stdout ≠ Channel.stderr := by
  exact ⟨rfl, by decide⟩

/-- C3 amended: wrong arity prints the usage text to standard output and
exits with status 2, independently of the documents (no comparison). -/
theorem mainF_wrong_arity (fuel : Nat) (argv : List String) (base curr : Json)
    (h : argv.length ≠ 3) :
    mainF fuel argv base curr = some (.ok ⟨[(Channel.stdout, usageText)], 2⟩) := by
  unfold mainF
  simp [h]

/-- Witness for the amended C3 at zero arguments. -/
theorem mainF_wrong_arity_witness :
    mainF 0 ["compare-openapi-breaking.py"] (.obj [("paths", .num 3)]) (.null)
      = some (.ok ⟨[(Channel.stdout, usageText)], 2⟩) :=
  mainF_wrong_arity 0 ["compare-openapi-breaking.py"] (.obj [("paths", .num 3)]) .null
    (by decide)

/-! ### C1: cyclic schema -/

/-- The self-referential node of the spec's cyclic example:
`Node.properties.next.$ref` points back to `Node`. -/
def cyclicRefNode : Json := .obj [("$ref", .str "#/Node")]

def cyclicNode : Json :=
  .obj [("type", .str "object"), ("properties", .obj [("next", cyclicRefNode)])]

def cyclicDoc : Json := .obj [("Node", cyclicNode)]

theorem resolve_cyclicNode (fuel : Nat) (seen : List String) :
    resolve_ref (fuel+1) cyclicNode cyclicDoc seen = some cyclicNode := rfl

theorem pyOr_cyclicNode : Json.pyOr cyclicNode (.obj []) = cyclicNode := rfl

theorem schema_breaks_cyclic_aux :
    ∀ fuel, (∀ ctx, schema_breaks fuel cyclicNode cyclicNode cyclicDoc cyclicDoc ctx = none)
      ∧ (∀ ctx, schema_breaks fuel cyclicRefNode cyclicRefNode cyclicDoc cyclicDoc ctx = none) := by
  intro fuel
  induction fuel with
  | zero => exact ⟨fun ctx => rfl, fun ctx => rfl⟩
  | succ n ih =>
    obtain ⟨ihNode, ihRef⟩ := ih
    have ihRef2 : ∀ t, schema_breaks n (Json.obj [("$ref", Json.str "#/Node")])
        (Json.obj [("$ref", Json.str "#/Node")])
        (Json.obj [("Node", Json.obj [("type", Json.str "object"),
          ("properties", Json.obj [("next", Json.obj [("$ref", Json.str "#/Node")])])])])
        (Json.obj [("Node", Json.obj [("type", Json.str "object"),
          ("properties", Json.obj [("next", Json.obj [("$ref", Json.str "#/Node")])])])])
        t = none := by
      intro t
      simpa [cyclicRefNode, cyclicNode, cyclicDoc] using ihRef t
    constructor
    · intro ctx
      rw [schema_breaks, pyOr_cyclicNode, resolve_cyclicNode n []]
      simp [ihRef2, objBlock, arrBlock, propLoop, withE, catF, okF,
            enumRemoved, requiredRemoved, propsRemoved, propsCommon, propsOf,
            pySubscript, pySet, pyIter, pyDedup, pyDedupAux, pyDiff, pyInter,
            sortedE, allPairsComparable, sortLe, insertLe, pyLeB, pyLt, toNum?,
            pyEq, pyEqList, pyEqSub, pyFindWith, Json.jGet, Json.listFind?,
            Json.pyOr, Json.truthy, Json.isObj, Json.hasKey, Json.hashable,
            pyStr, pyRepr, cyclicNode, cyclicRefNode, cyclicDoc, bind, Except.bind]
    · intro ctx
      cases n with
      | zero => rfl
      | succ m =>
        rw [schema_breaks]
        have hres : resolve_ref (m+2) (Json.pyOr cyclicRefNode (.obj [])) cyclicDoc []
            = some cyclicNode := rfl
        rw [hres]
        simp [ihRef2, objBlock, arrBlock, propLoop, withE, catF, okF,
              enumRemoved, requiredRemoved, propsRemoved, propsCommon, propsOf,
              pySubscript, pySet, pyIter, pyDedup, pyDedupAux, pyDiff, pyInter,
              sortedE, allPairsComparable, sortLe, insertLe, pyLeB, pyLt, toNum?,
              pyEq, pyEqList, pyEqSub, pyFindWith, Json.jGet, Json.listFind?,
              Json.pyOr, Json.truthy, Json.isObj, Json.hasKey, Json.hashable,
              pyStr, pyRepr, cyclicNode, cyclicRefNode, cyclicDoc, bind, Except.bind]

/-- C1: the spec's cyclic example diverges — at every fuel the comparison
of `cyclicNode` against itself is still recursing (`none`), because each
property-level descent re-resolves `#/Node` with a fresh `visited` set; in
Python this is an unbounded recursion ending in `RecursionError`, not a
guarded termination. -/
theorem schema_breaks_cyclic_diverges :
    ∀ fuel ctx, schema_breaks fuel cyclicNode cyclicNode cyclicDoc cyclicDoc ctx = none :=
  fun fuel ctx => (schema_breaks_cyclic_aux fuel).1 ctx

/-! ### C6: non-scalar enum members -/

/-- Enum comparison raises `TypeError` when either enum list contains an
unhashable (structured) member. -/
theorem enumRemoved_err {b c : Json} {be ce : List Json}
    (hbe : b.jGet "enum" = .arr be) (hce : c.jGet "enum" = .arr ce)
    (hbad : (be ++ ce).any (fun j => !j.hashable) = true) :
    enumRemoved b c = .error "TypeError" := by
  unfold enumRemoved
  rw [hbe, hce]
  by_cases hb : be.all Json.hashable = true
  · have hc2 : ce.all Json.hashable = false := by
      rcases List.any_eq_true.mp hbad with ⟨j, hj, hji⟩
      rcases List.mem_append.mp hj with hjb | hjc
      · exfalso
        have := List.all_eq_true.mp hb j hjb
        simp [this] at hji
      · refine Bool.eq_false_iff.mpr (fun hall => ?_)
        have := List.all_eq_true.mp hall j hjc
        simp [this] at hji
    simp [pySet, pyIter, hb, hc2, bind, Except.bind]
  · simp [pySet, pyIter, Bool.eq_false_iff.mpr hb, bind, Except.bind]

/-- C6 counterexample: both schemas declare an enum containing a structured
member, yet the comparison succeeds with the type-changed finding — the
type-change short-circuit fires before the enum comparison, so no loud
failure occurs. -/
theorem schema_breaks_type_change_shortcircuits_enum :
    schema_breaks 1
        (.obj [("type", .str "a"), ("enum", .arr [.arr []])])
        (.obj [("type", .str "b"), ("enum", .arr [.arr []])])
        (.obj []) (.obj []) "ctx"
      = some (.ok ["ctx: schema type changed from a to b"]) := rfl

/-- C6 amended: once the enum comparison is reached (both sides resolve to
objects and the type-change short-circuit does not fire), an enum
containing a structured (unhashable) member on either side raises
`TypeError` — a loud failure rather than a silent mis-comparison. -/
theorem schema_breaks_raises_on_nonscalar_enum (fuel : Nat) (bs cs bd cd : Json)
    (ctx : String) (b c : Json) (be ce : List Json)
    (hb : resolve_ref (fuel+1) (Json.pyOr bs (.obj [])) bd [] = some b)
    (hc : resolve_ref (fuel+1) (Json.pyOr cs (.obj [])) cd [] = some c)
    (hbo : b.isObj = true) (hco : c.isObj = true)
    (hnt : ((b.jGet "type").truthy && (c.jGet "type").truthy
            && !pyEq (b.jGet "type") (c.jGet "type")) = false)
    (hbe : b.jGet "enum" = .arr be) (hce : c.jGet "enum" = .arr ce)
    (hbad : (be ++ ce).any (fun j => !j.hashable) = true) :
    schema_breaks (fuel+1) bs cs bd cd ctx = some (.error "TypeError") := by
  rw [schema_breaks, hb, hc]
  simp only [hbo, hco, Bool.and_self, Bool.not_true, Bool.false_eq_true, if_false]
  rw [if_neg (by simp [hnt])]
  rw [enumRemoved_err hbe hce hbad]
  rfl

/-- Witness for the amended C6: equal types, one enum with a dict member. -/
theorem schema_breaks_raises_on_nonscalar_enum_witness :
    schema_breaks 1
        (.obj [("enum", .arr [.obj []])])
        (.obj [("enum", .arr [.num 1])])
        (.obj []) (.obj []) "c"
      = some (.error "TypeError") :=
  schema_breaks_raises_on_nonscalar_enum 0
    (.obj [("enum", .arr [.obj []])]) (.obj [("enum", .arr [.num 1])])
    (.obj []) (.obj []) "c" _ _ [.obj []] [.num 1]
    rfl rfl rfl rfl rfl rfl rfl rfl

/-! ### C2: raising behaviour on malformed fields

`schema_breaks` can raise (`TypeError`) on inputs whose `required`,
`properties` or `enum` fields are malformed — `wfSchema` below captures the
sufficient shape conditions under which no exception is possible. -/

/-- Members that Python's `set`/`sorted` pipeline accepts: hashable and
pairwise orderable. -/
def scalarsSortable (xs : List Json) : Bool :=
  xs.all Json.hashable && allPairsComparable xs

/-- Shape conditions on one object node: a truthy `required` is a list of
sortable scalars, a truthy `properties` is a dict, a list-valued `enum`
has sortable scalar members. -/
def wfLocalEntries (es : List (String × Json)) : Bool :=
  (!((Json.obj es).jGet "required").truthy
    || (match (Json.obj es).jGet "required" with
        | .arr xs => scalarsSortable xs
        | _ => false))
  && (!((Json.obj es).jGet "properties").truthy
      || ((Json.obj es).jGet "properties").isObj)
  && (match (Json.obj es).jGet "enum" with
      | .arr xs => scalarsSortable xs
      | _ => true)

mutual
/-- Well-formedness of every object node reachable in a value. -/
def wfSchema : Json → Bool
  | .obj es => wfLocalEntries es && wfEntries es
  | .arr xs => wfList xs
  | _ => true

def wfEntries : List (String × Json) → Bool
  | [] => true
  | (_, v) :: rest => wfSchema v && wfEntries rest

def wfList : List Json → Bool
  | [] => true
  | x :: rest => wfSchema x && wfList rest
end

theorem wfEntries_mem {es : List (String × Json)} {k : String} {v : Json}
    (h : wfEntries es = true) (hmem : (k, v) ∈ es) : wfSchema v = true := by
  induction es with
  | nil => simp at hmem
  | cons e rest ih =>
    obtain ⟨k2, v2⟩ := e
    rw [wfEntries] at h
    obtain ⟨h1, h2⟩ := Bool.and_eq_true .. ▸ h
    rcases List.mem_cons.mp hmem with hh | hh
    · obtain ⟨e1, e2⟩ := Prod.mk.injEq .. ▸ hh
      subst e2
      exact h1
    · exact ih h2 hh

theorem wfList_mem {xs : List Json} {x : Json}
    (h : wfList xs = true) (hmem : x ∈ xs) : wfSchema x = true := by
  induction xs with
  | nil => simp at hmem
  | cons y rest ih =>
    rw [wfList] at h
    obtain ⟨h1, h2⟩ := Bool.and_eq_true .. ▸ h
    rcases List.mem_cons.mp hmem with hh | hh
    · subst hh; exact h1
    · exact ih h2 hh

theorem listFind?_mem {es : List (String × Json)} {k : String} {v : Json}
    (h : Json.listFind? es k = some v) : (k, v) ∈ es := by
  induction es with
  | nil => simp [Json.listFind?] at h
  | cons e rest ih =>
    obtain ⟨k2, v2⟩ := e
    rw [Json.listFind?] at h
    by_cases hk : (k2 == k) = true
    · rw [if_pos hk] at h
      have e1 : k2 = k := by simpa using hk
      have e2 : v2 = v := by simpa using h
      subst e1; subst e2
      simp
    · rw [if_neg hk] at h
      exact List.mem_cons_of_mem _ (ih h)

/-- Field access preserves well-formedness. -/
theorem wfSchema_jGet {j : Json} (h : wfSchema j = true) (k : String) :
    wfSchema (j.jGet k) = true := by
  match j with
  | .null | .bool _ | .num _ | .str _ | .arr _ => rfl
  | .obj es =>
    rw [Json.jGet]
    match hf : Json.listFind? es k with
    | none => rfl
    | some v =>
      rw [wfSchema] at h
      obtain ⟨_, h2⟩ := Bool.and_eq_true .. ▸ h
      simpa using wfEntries_mem h2 (listFind?_mem hf)

theorem wfSchema_pyOr {a b : Json} (ha : wfSchema a = true) (hb : wfSchema b = true) :
    wfSchema (Json.pyOr a b) = true := by
  unfold Json.pyOr
  by_cases h : a.truthy = true
  · rwa [if_pos h]
  · rw [if_neg h]; exact hb

theorem wfSchema_emptyObj : wfSchema (.obj []) = true := rfl

/-- The pointer walk only reaches well-formed nodes. -/
theorem walkTokens_wf {ts : List String} {doc n : Json}
    (hdoc : wfSchema doc = true) (h : walkTokens ts doc = some n) : wfSchema n = true := by
  induction ts generalizing doc with
  | nil =>
    rw [walkTokens] at h
    cases h
    exact hdoc
  | cons t rest ih =>
    match doc with
    | .null | .bool _ | .num _ | .str _ | .arr _ => simp [walkTokens] at h
    | .obj es =>
      rw [walkTokens] at h
      match hf : Json.listFind? es t with
      | none =>
        rw [hf] at h
        simp at h
      | some v =>
        rw [hf] at h
        rw [wfSchema] at hdoc
        obtain ⟨_, h2⟩ := Bool.and_eq_true .. ▸ hdoc
        exact ih (wfEntries_mem h2 (listFind?_mem hf)) h

/-- Pointer resolution only produces well-formed nodes. -/
theorem resolve_ref_wf : ∀ {fuel : Nat} {schema doc r : Json} {seen : List String},
    wfSchema schema = true → wfSchema doc = true →
    resolve_ref fuel schema doc seen = some r → wfSchema r = true := by
  intro fuel
  induction fuel with
  | zero =>
    intro schema doc r seen hs hd h
    simp [resolve_ref] at h
  | succ n ih =>
    intro schema doc r seen hs hd h
    match schema with
    | .null | .bool _ | .num _ | .str _ | .arr _ =>
      simp only [resolve_ref] at h
      cases h
      assumption
    | .obj es =>
      simp only [resolve_ref] at h
      match hf : Json.listFind? es "$ref" with
      | none =>
        rw [hf] at h
        dsimp only at h
        cases h
        exact hs
      | some (.null) | some (.bool _) | some (.num _) | some (.arr _) | some (.obj _) =>
        rw [hf] at h
        dsimp only at h
        cases h
        exact hs
      | some (.str ref) =>
        rw [hf] at h
        dsimp only at h
        by_cases hsw : strStartsWith ref "#/" = true
        · rw [if_pos hsw] at h
          by_cases hseen : seen.contains ref = true
          · rw [if_pos hseen] at h
            cases h
            exact hs
          · rw [if_neg hseen] at h
            match hw : walkTokens (splitSlash (strDrop ref 2)) doc with
            | none =>
              rw [hw] at h
              cases h
              exact hs
            | some node =>
              rw [hw] at h
              exact ih (walkTokens_wf hd hw) hd h
        · rw [if_neg hsw] at h
          cases h
          exact hs

/-! ### Set and sort lemmas for the no-raise proof -/

theorem mem_pyDedupAux {y : Json} : ∀ {seen xs : List Json}, y ∈ pyDedupAux seen xs → y ∈ xs := by
  intro seen xs
  induction xs generalizing seen with
  | nil => intro h; simp [pyDedupAux] at h
  | cons x rest ih =>
    intro h
    rw [pyDedupAux] at h
    by_cases hx : (seen.any fun z => pyEq z x) = true
    · rw [if_pos hx] at h
      exact List.mem_cons_of_mem _ (ih h)
    · rw [if_neg hx] at h
      rcases List.mem_cons.mp h with hh | hh
      · subst hh; simp
      · exact List.mem_cons_of_mem _ (ih hh)

theorem mem_pyDedup {y : Json} {xs : List Json} (h : y ∈ pyDedup xs) : y ∈ xs :=
  mem_pyDedupAux h

theorem insertLe_perm {α : Type} (le : α → α → Bool) (x : α) (l : List α) :
    List.Perm (insertLe le x l) (x :: l) := by
  induction l with
  | nil => simp [insertLe]
  | cons y ys ih =>
    rw [insertLe]
    by_cases hc : le x y = true
    · rw [if_pos hc]
    · rw [if_neg hc]
      exact List.Perm.trans (List.Perm.cons y ih) (List.Perm.swap x y ys)

theorem sortLe_perm {α : Type} (le : α → α → Bool) (l : List α) :
    List.Perm (sortLe le l) l := by
  induction l with
  | nil => exact List.Perm.refl _
  | cons x xs ih =>
    exact List.Perm.trans (insertLe_perm le x (sortLe le xs)) (List.Perm.cons x ih)

theorem mem_sortLe {α : Type} {le : α → α → Bool} {l : List α} {y : α} :
    y ∈ sortLe le l ↔ y ∈ l :=
  (sortLe_perm le l).mem_iff

/-- Pairwise comparability restricts to any subset. -/
theorem allPairs_subset {xs ys : List Json} (hsub : ∀ y ∈ ys, y ∈ xs)
    (h : allPairsComparable xs = true) : allPairsComparable ys = true := by
  unfold allPairsComparable at h ⊢
  refine List.all_eq_true.mpr (fun a ha => List.all_eq_true.mpr (fun b hb => ?_))
  have := List.all_eq_true.mp (List.all_eq_true.mp h a (hsub a ha)) b (hsub b hb)
  exact this

theorem sortedE_ok_of {xs : List Json} (h : allPairsComparable xs = true) :
    sortedE xs = .ok (sortLe pyLeB xs) := by
  unfold sortedE
  rw [if_pos h]

theorem pySet_arr_ok {xs : List Json} (h : xs.all Json.hashable = true) :
    pySet (.arr xs) = .ok (pyDedup xs) := by
  simp [pySet, pyIter, h]

theorem pySet_obj_ok (es : List (String × Json)) :
    pySet (.obj es) = .ok (pyDedup (es.map (fun e => Json.str e.1))) := by
  have h : (es.map (fun e => Json.str e.1)).all Json.hashable = true := by
    refine List.all_eq_true.mpr (fun a ha => ?_)
    rcases List.mem_map.mp ha with ⟨e, _, he⟩
    subst he
    rfl
  simp [pySet, pyIter, h]

theorem pySet_str_ok (s : String) :
    pySet (.str s) = .ok (pyDedup (s.data.map (fun c => Json.str (String.mk [c])))) := by
  have h : (s.data.map (fun c => Json.str (String.mk [c]))).all Json.hashable = true := by
    refine List.all_eq_true.mpr (fun a ha => ?_)
    rcases List.mem_map.mp ha with ⟨e, _, he⟩
    subst he
    rfl
  simp [pySet, pyIter, h]

theorem mem_pyDiff {xs ys : List Json} {y : Json} (h : y ∈ pyDiff xs ys) : y ∈ xs :=
  (List.mem_filter.mp h).1

theorem mem_pyInter {xs ys : List Json} {y : Json} (h : y ∈ pyInter xs ys) : y ∈ xs :=
  (List.mem_filter.mp h).1

/-- All-string lists are always pairwise comparable. -/
theorem allPairs_str {xs : List Json} (h : ∀ y ∈ xs, ∃ s, y = Json.str s) :
    allPairsComparable xs = true := by
  unfold allPairsComparable
  refine List.all_eq_true.mpr (fun a ha => List.all_eq_true.mpr (fun b hb => ?_))
  obtain ⟨sa, hsa⟩ := h a ha
  obtain ⟨sb, hsb⟩ := h b hb
  subst hsa; subst hsb
  simp [pyLt, toNum?]

/-- Find succeeds on a dict for any key present in the key list. -/
theorem find_entry_of_key {es : List (String × Json)} {s : String}
    (h : s ∈ es.map Prod.fst) :
    ∃ e, es.find? (fun e => pyEq (.str e.1) (.str s)) = some e ∧ e ∈ es ∧ e.1 = s := by
  induction es with
  | nil => simp at h
  | cons kv rest ih =>
    obtain ⟨k, v⟩ := kv
    by_cases hk : k = s
    · subst hk
      refine ⟨(k, v), ?_, by simp, rfl⟩
      rw [List.find?]
      have : pyEq (.str k) (.str k) = true := pyEq_refl _
      simp [this]
    · have hs : s ∈ rest.map Prod.fst := by
        rcases List.mem_map.mp h with ⟨e, he, hee⟩
        rcases List.mem_cons.mp he with hh | hh
        · exfalso; subst hh; exact hk hee
        · exact List.mem_map.mpr ⟨e, hh, hee⟩
      obtain ⟨e, he1, he2, he3⟩ := ih hs
      refine ⟨e, ?_, List.mem_cons_of_mem _ he2, he3⟩
      rw [List.find?]
      have : pyEq (Json.str k) (Json.str s) = false := by
        rw [pyEq]
        simpa using hk
      simp [this, he1]

/-! ### Field-level consequences of `wfSchema` -/

theorem pyEq_str_iff (a b : String) : pyEq (.str a) (.str b) = (a == b) := by
  rw [pyEq]

theorem wf_enum {b : Json} {be : List Json} (h : wfSchema b = true)
    (he : b.jGet "enum" = .arr be) : scalarsSortable be = true := by
  match b with
  | .null | .bool _ | .num _ | .str _ | .arr _ => simp [Json.jGet] at he
  | .obj es =>
    rw [wfSchema] at h
    obtain ⟨h1, _⟩ := Bool.and_eq_true .. ▸ h
    unfold wfLocalEntries at h1
    obtain ⟨_, h3⟩ := Bool.and_eq_true .. ▸ h1
    rw [he] at h3
    exact h3

theorem wf_required {b : Json} (h : wfSchema b = true) :
    ∃ l, pySet (Json.pyOr (b.jGet "required") (.arr [])) = .ok l
      ∧ allPairsComparable l = true := by
  by_cases ht : (b.jGet "required").truthy = true
  · match hb : b with
    | .null | .bool _ | .num _ | .str _ | .arr _ => simp [Json.jGet, Json.truthy] at ht
    | .obj es =>
      rw [wfSchema] at h
      obtain ⟨h1, _⟩ := Bool.and_eq_true .. ▸ h
      unfold wfLocalEntries at h1
      obtain ⟨h12, _⟩ := Bool.and_eq_true .. ▸ h1
      obtain ⟨h2, _⟩ := Bool.and_eq_true .. ▸ h12
      rw [Bool.or_eq_true] at h2
      rcases h2 with h2 | h2
      · rw [ht] at h2; simp at h2
      · match hr : (Json.obj es).jGet "required" with
        | .null | .bool _ | .num _ | .str _ | .obj _ => rw [hr] at h2; simp at h2
        | .arr xs =>
          rw [hr] at h2
          obtain ⟨hh, hcmp⟩ := Bool.and_eq_true .. ▸ h2
          rw [hr] at ht
          refine ⟨pyDedup xs, ?_, ?_⟩
          · rw [Json.pyOr, if_pos ht]
            exact pySet_arr_ok hh
          · exact allPairs_subset (fun y hy => mem_pyDedup hy) hcmp
  · refine ⟨[], ?_, rfl⟩
    rw [Json.pyOr, if_neg ht]
    rfl

theorem wf_props {b : Json} (h : wfSchema b = true) :
    ∃ es2, propsOf b = .obj es2 ∧ wfEntries es2 = true := by
  unfold propsOf
  by_cases ht : (b.jGet "properties").truthy = true
  · match hb : b with
    | .null | .bool _ | .num _ | .str _ | .arr _ => simp [Json.jGet, Json.truthy] at ht
    | .obj es =>
      have hwfv : wfSchema ((Json.obj es).jGet "properties") = true := wfSchema_jGet h _
      rw [wfSchema] at h
      obtain ⟨h1, _⟩ := Bool.and_eq_true .. ▸ h
      unfold wfLocalEntries at h1
      obtain ⟨h12, _⟩ := Bool.and_eq_true .. ▸ h1
      obtain ⟨_, h2⟩ := Bool.and_eq_true .. ▸ h12
      rw [Bool.or_eq_true] at h2
      rcases h2 with h2 | h2
      · rw [ht] at h2; simp at h2
      · match hp : (Json.obj es).jGet "properties" with
        | .null | .bool _ | .num _ | .str _ | .arr _ => rw [hp] at h2; simp [Json.isObj] at h2
        | .obj es2 =>
          rw [hp] at ht hwfv
          rw [Json.pyOr, if_pos ht]
          rw [wfSchema] at hwfv
          obtain ⟨_, hwf2⟩ := Bool.and_eq_true .. ▸ hwfv
          exact ⟨es2, rfl, hwf2⟩
  · rw [Json.pyOr, if_neg ht]
    exact ⟨[], rfl, rfl⟩

/-- Enum comparison cannot raise on well-formed schemas. -/
theorem enumRemoved_wf {b c : Json} (hb : wfSchema b = true) (hc : wfSchema c = true) :
    ∃ l, enumRemoved b c = .ok l := by
  unfold enumRemoved
  match hbe : b.jGet "enum", hce : c.jGet "enum" with
  | .arr be, .arr ce =>
    obtain ⟨hbh, hbc⟩ := Bool.and_eq_true .. ▸ wf_enum hb hbe
    obtain ⟨hch, _⟩ := Bool.and_eq_true .. ▸ wf_enum hc hce
    have hcmp : allPairsComparable (pyDiff (pyDedup be) (pyDedup ce)) = true :=
      allPairs_subset (fun y hy => mem_pyDedup (mem_pyDiff hy)) hbc
    refine ⟨sortLe pyLeB (pyDiff (pyDedup be) (pyDedup ce)), ?_⟩
    simp [bind, Except.bind, pySet_arr_ok hbh, pySet_arr_ok hch, sortedE_ok_of hcmp]
  | .null, _ | .bool _, _ | .num _, _ | .str _, _ | .obj _, _ => exact ⟨[], rfl⟩
  | .arr _, .null | .arr _, .bool _ | .arr _, .num _ | .arr _, .str _ | .arr _, .obj _ =>
    exact ⟨[], rfl⟩

/-- Required-set comparison cannot raise on well-formed schemas. -/
theorem requiredRemoved_wf {b c : Json} (hb : wfSchema b = true) (hc : wfSchema c = true) :
    ∃ l, requiredRemoved b c = .ok l := by
  unfold requiredRemoved
  obtain ⟨lb, hlb, hcb⟩ := wf_required hb
  obtain ⟨lc, hlc, _⟩ := wf_required hc
  rw [hlb, hlc]
  have hcmp : allPairsComparable (pyDiff lb lc) = true :=
    allPairs_subset (fun y hy => mem_pyDiff hy) hcb
  refine ⟨sortLe pyLeB (pyDiff lb lc), ?_⟩
  simp [bind, Except.bind, sortedE_ok_of hcmp]

theorem dedup_keys_str {es : List (String × Json)} {y : Json}
    (h : y ∈ pyDedup (es.map (fun e => Json.str e.1))) :
    ∃ s, y = Json.str s ∧ s ∈ es.map Prod.fst := by
  rcases List.mem_map.mp (mem_pyDedup h) with ⟨e, he, hee⟩
  exact ⟨e.1, hee.symm, List.mem_map.mpr ⟨e, he, rfl⟩⟩

/-- Removed-properties comparison cannot raise on well-formed schemas. -/
theorem propsRemoved_wf {b c : Json} (hb : wfSchema b = true) (hc : wfSchema c = true) :
    ∃ l, propsRemoved b c = .ok l := by
  unfold propsRemoved
  obtain ⟨esb, hesb, _⟩ := wf_props hb
  obtain ⟨esc, hesc, _⟩ := wf_props hc
  rw [hesb, hesc, pySet_obj_ok esb, pySet_obj_ok esc]
  have hcmp : allPairsComparable
      (pyDiff (pyDedup (esb.map (fun e => Json.str e.1)))
              (pyDedup (esc.map (fun e => Json.str e.1)))) = true := by
    refine allPairs_str (fun y hy => ?_)
    obtain ⟨s, hs, _⟩ := dedup_keys_str (mem_pyDiff hy)
    exact ⟨s, hs⟩
  refine ⟨sortLe pyLeB
    (pyDiff (pyDedup (esb.map (fun e => Json.str e.1)))
            (pyDedup (esc.map (fun e => Json.str e.1)))), ?_⟩
  simp [bind, Except.bind, sortedE_ok_of hcmp]

/-- Shared-properties computation cannot raise on well-formed schemas, and
every member is a key of both `properties` dicts. -/
theorem propsCommon_wf {b c : Json} {esb esc : List (String × Json)}
    (hesb : propsOf b = .obj esb) (hesc : propsOf c = .obj esc) :
    ∃ l, propsCommon b c = .ok l
      ∧ ∀ q ∈ l, ∃ s, q = Json.str s ∧ s ∈ esb.map Prod.fst ∧ s ∈ esc.map Prod.fst := by
  unfold propsCommon
  rw [hesb, hesc, pySet_obj_ok esb, pySet_obj_ok esc]
  set il := pyInter (pyDedup (esb.map (fun e => Json.str e.1)))
                    (pyDedup (esc.map (fun e => Json.str e.1))) with hil
  have hcmp : allPairsComparable il = true := by
    refine allPairs_str (fun y hy => ?_)
    obtain ⟨s, hs, _⟩ := dedup_keys_str (mem_pyInter hy)
    exact ⟨s, hs⟩
  refine ⟨sortLe pyLeB il, by simp [bind, Except.bind, sortedE_ok_of hcmp], ?_⟩
  intro q hq
  have hq2 : q ∈ il := mem_sortLe.mp hq
  obtain ⟨s, hqs, hsb⟩ := dedup_keys_str (mem_pyInter hq2)
  refine ⟨s, hqs, hsb, ?_⟩
  have hany := (List.mem_filter.mp hq2).2
  rcases List.any_eq_true.mp hany with ⟨y, hy, hqy⟩
  obtain ⟨t, hyt, htc⟩ := dedup_keys_str hy
  subst hqs; subst hyt
  rw [pyEq_str_iff] at hqy
  have : s = t := by simpa using hqy
  subst this
  exact htc

theorem pySubscript_key {es : List (String × Json)} {s : String}
    (h : s ∈ es.map Prod.fst) :
    ∃ v, pySubscript (.obj es) (.str s) = .ok v ∧ ∃ k, (k, v) ∈ es := by
  obtain ⟨e, hfind, hmem, _⟩ := find_entry_of_key h
  refine ⟨e.2, by simp [pySubscript, hfind], e.1, ?_⟩
  simpa using hmem

/-- The property loop cannot raise when both sides are dicts of well-formed
values, the visited keys exist on both sides, and the recursion cannot
raise. -/
theorem propLoop_no_raise {rec : Json → Json → String → CmpRes}
    {esb esc : List (String × Json)} {ctx : String}
    (hwb : wfEntries esb = true) (hwc : wfEntries esc = true)
    (hrec : ∀ x y t, wfSchema x = true → wfSchema y = true →
      ∀ e, rec x y t ≠ some (.error e)) :
    ∀ qs, (∀ q ∈ qs, ∃ s, q = Json.str s ∧ s ∈ esb.map Prod.fst ∧ s ∈ esc.map Prod.fst) →
      ∀ e, propLoop rec (.obj esb) (.obj esc) ctx qs ≠ some (.error e) := by
  intro qs
  induction qs with
  | nil =>
    intro _ e h
    simp [propLoop, okF] at h
  | cons q rest ih =>
    intro hmem e h
    obtain ⟨s, hqs, hsb, hsc⟩ := hmem q (by simp)
    subst hqs
    obtain ⟨bv, hbv, kb, hkb⟩ := pySubscript_key hsb
    obtain ⟨cv, hcv, kc, hkc⟩ := pySubscript_key hsc
    rw [propLoop, hbv] at h
    rw [show withE (Except.ok bv) = fun k => k bv from rfl] at h
    rw [hcv] at h
    rw [show withE (Except.ok cv) = fun k => k cv from rfl] at h
    dsimp only at h
    have hwbv : wfSchema bv = true := wfEntries_mem hwb hkb
    have hwcv : wfSchema cv = true := wfEntries_mem hwc hkc
    exact catF_not_err (hrec bv cv _ hwbv hwcv)
      (ih (fun q2 hq2 => hmem q2 (by simp [hq2]))) e h

/-- The object-like block cannot raise on well-formed schemas with a
non-raising recursion. -/
theorem objBlock_no_raise {rec : Json → Json → String → CmpRes} {b c : Json}
    {ctx : String} (hb : wfSchema b = true) (hc : wfSchema c = true)
    (hrec : ∀ x y t, wfSchema x = true → wfSchema y = true →
      ∀ e, rec x y t ≠ some (.error e)) :
    ∀ e, objBlock rec b c ctx ≠ some (.error e) := by
  intro e h
  unfold objBlock at h
  by_cases hcond : (pyEq (b.jGet "type") (.str "object") || b.hasKey "properties") = true
  swap
  · rw [if_neg hcond] at h
    simp [okF] at h
  rw [if_pos hcond] at h
  obtain ⟨lr, hlr⟩ := requiredRemoved_wf hb hc
  rw [hlr] at h
  rw [show withE (Except.ok lr) = fun k => k lr from rfl] at h
  dsimp only at h
  obtain ⟨lp, hlp⟩ := propsRemoved_wf hb hc
  rw [hlp] at h
  rw [show withE (Except.ok lp) = fun k => k lp from rfl] at h
  dsimp only at h
  obtain ⟨esb, hesb, hwb⟩ := wf_props hb
  obtain ⟨esc, hesc, hwc⟩ := wf_props hc
  obtain ⟨lc, hlc, hlcmem⟩ := propsCommon_wf hesb hesc
  rw [hlc] at h
  rw [show withE (Except.ok lc) = fun k => k lc from rfl] at h
  dsimp only at h
  rw [hesb, hesc] at h
  refine catF_not_err (fun e2 hh => by simp [okF] at hh) ?_ e h
  exact propLoop_no_raise hwb hwc hrec lc hlcmem

/-- The array block cannot raise on well-formed schemas with a non-raising
recursion. -/
theorem arrBlock_no_raise {rec : Json → Json → String → CmpRes} {b c : Json}
    {ctx : String} (hb : wfSchema b = true) (hc : wfSchema c = true)
    (hrec : ∀ x y t, wfSchema x = true → wfSchema y = true →
      ∀ e, rec x y t ≠ some (.error e)) :
    ∀ e, arrBlock rec b c ctx ≠ some (.error e) := by
  intro e h
  unfold arrBlock at h
  by_cases hcond :
      (pyEq (b.jGet "type") (.str "array") && pyEq (c.jGet "type") (.str "array")) = true
  · rw [if_pos hcond] at h
    exact hrec _ _ _
      (wfSchema_pyOr (wfSchema_jGet hb "items") wfSchema_emptyObj)
      (wfSchema_pyOr (wfSchema_jGet hc "items") wfSchema_emptyObj) e h
  · rw [if_neg hcond] at h
    simp [okF] at h

/-- C2 amended core: `schema_breaks` never raises when the schemas and
documents are well-formed in the sense of `wfSchema`. -/
theorem schema_breaks_no_raise_aux :
    ∀ fuel bs cs bd cd ctx, wfSchema bs = true → wfSchema cs = true →
      wfSchema bd = true → wfSchema cd = true →
      ∀ e, schema_breaks fuel bs cs bd cd ctx ≠ some (.error e) := by
  intro fuel
  induction fuel with
  | zero =>
    intro bs cs bd cd ctx _ _ _ _ e h
    simp [schema_breaks] at h
  | succ n ih =>
    intro bs cs bd cd ctx hbs hcs hbd hcd e h
    rw [schema_breaks] at h
    rcases hrb : resolve_ref (n+1) (Json.pyOr bs (.obj [])) bd [] with _ | b
    · rw [hrb] at h
      simp at h
    rw [hrb] at h
    rcases hrc : resolve_ref (n+1) (Json.pyOr cs (.obj [])) cd [] with _ | c
    · rw [hrc] at h
      simp at h
    rw [hrc] at h
    dsimp only at h
    have hwb : wfSchema b = true :=
      resolve_ref_wf (wfSchema_pyOr hbs wfSchema_emptyObj) hbd hrb
    have hwc : wfSchema c = true :=
      resolve_ref_wf (wfSchema_pyOr hcs wfSchema_emptyObj) hcd hrc
    by_cases hobj : (b.isObj && c.isObj) = true
    swap
    · rw [Bool.eq_false_iff.mpr hobj] at h
      simp [okF] at h
    rw [hobj] at h
    rw [if_neg (by simp)] at h
    by_cases htype : ((b.jGet "type").truthy && (c.jGet "type").truthy
        && !pyEq (b.jGet "type") (c.jGet "type")) = true
    · rw [if_pos htype] at h
      simp [okF] at h
    rw [if_neg htype] at h
    obtain ⟨le2, hle⟩ := enumRemoved_wf hwb hwc
    rw [hle] at h
    rw [show withE (Except.ok le2) = fun k => k le2 from rfl] at h
    dsimp only at h
    have hrec : ∀ x y t, wfSchema x = true → wfSchema y = true →
        ∀ e2, schema_breaks n x y bd cd t ≠ some (.error e2) :=
      fun x y t hx hy => ih x y bd cd t hx hy hbd hcd
    refine catF_not_err (fun e2 hh => by simp [okF] at hh) ?_ e h
    exact catF_not_err (objBlock_no_raise hwb hwc hrec) (arrBlock_no_raise hwb hwc hrec)

/-- C2 counterexample: a malformed, non-enum field raises — `required: 5`
makes `set(b.get("required") or [])` raise `TypeError` (`5` is truthy and
not iterable), so `schema_breaks` does not "never raise for malformed
fields other than the enum case". -/
theorem schema_breaks_raises_on_malformed_required :
    schema_breaks 1
        (.obj [("type", .str "object"), ("required", .num 5)])
        (.obj [("type", .str "object")])
        (.obj []) (.obj []) "c"
      = some (.error "TypeError") := rfl

/-- C2 amended: `schema_breaks` never raises provided every object node in
the schemas and the documents is well-formed — a truthy `required` is a
list of hashable, mutually orderable scalars, a truthy `properties` is a
dict, and a list-valued `enum` has hashable, mutually orderable members.
Outside these conditions it can raise `TypeError`. -/
theorem schema_breaks_no_raise (fuel : Nat) (bs cs bd cd : Json) (ctx : String)
    (hbs : wfSchema bs = true) (hcs : wfSchema cs = true)
    (hbd : wfSchema bd = true) (hcd : wfSchema cd = true) :
    ∀ e, schema_breaks fuel bs cs bd cd ctx ≠ some (.error e) :=
  schema_breaks_no_raise_aux fuel bs cs bd cd ctx hbs hcs hbd hcd

/-- Witness for the amended C2: a partial (field-free) base schema against
a structured current schema, with a `$ref` into the document. -/
theorem schema_breaks_no_raise_witness :
    schema_breaks 3
        (.obj [("required", .arr [.str "a", .str "b"]), ("properties", .obj [])])
        (.obj [("$ref", .str "#/defs/T")])
        (.obj []) (.obj [("defs", .obj [("T", .obj [("type", .str "object")])])])
        "c"
      ≠ some (.error "TypeError") :=
  schema_breaks_no_raise 3
    (.obj [("required", .arr [.str "a", .str "b"]), ("properties", .obj [])])
    (.obj [("$ref", .str "#/defs/T")])
    (.obj []) (.obj [("defs", .obj [("T", .obj [("type", .str "object")])])])
    "c" rfl rfl rfl rfl "TypeError"

/-! ### Context prefixes of findings -/

/-- The string `s` starts with `p` (on the character lists). -/
def headedBy (p s : String) : Prop := ∃ t : List Char, s.data = p.data ++ t

theorem headedBy_append (p x : String) : headedBy p (p ++ x) := ⟨x.data, rfl⟩

theorem headedBy_append_extend {p s : String} (x : String)
    (h : headedBy (p ++ x) s) : headedBy p s := by
  obtain ⟨t, ht⟩ := h
  exact ⟨x.data ++ t, by simpa [List.append_assoc] using ht⟩

/-- Two strings with a character mismatch inside their literal heads cannot
both extend the other's head. -/
theorem not_headedBy_of_mismatch {ctx pfx lit rest : String} {i : Nat}
    (hip : i < pfx.data.length) (hil : i < lit.data.length)
    (hne : pfx.data.get ⟨i, hip⟩ ≠ lit.data.get ⟨i, hil⟩) :
    ¬ headedBy (ctx ++ pfx) (ctx ++ lit ++ rest) := by
  rintro ⟨t, ht⟩
  have ht2 : ctx.data ++ (lit.data ++ rest.data) = ctx.data ++ (pfx.data ++ t) := by
    simpa [List.append_assoc] using ht
  have ht3 : lit.data ++ rest.data = pfx.data ++ t := by
    exact List.append_cancel_left ht2
  have e1 : (lit.data ++ rest.data)[i]? = lit.data[i]? := List.getElem?_append_left hil
  have e2 : (pfx.data ++ t)[i]? = pfx.data[i]? := List.getElem?_append_left hip
  rw [ht3, e2] at e1
  rw [List.getElem?_eq_getElem hip, List.getElem?_eq_getElem hil] at e1
  exact hne (by simpa using e1)

theorem headedBy_extend_right {p s : String} (x : String) (h : headedBy p s) :
    headedBy p (s ++ x) := by
  obtain ⟨t, ht⟩ := h
  exact ⟨t ++ x.data, by simp [ht, List.append_assoc]⟩

/-- Findings of the property loop carry the extended context
`ctx ++ "." ++ …`. -/
theorem propLoop_headed {rec : Json → Json → String → CmpRes} {bP cP : Json} {ctx : String}
    (hrec : ∀ x y t fs, rec x y t = some (.ok fs) → ∀ f ∈ fs, headedBy t f) :
    ∀ qs fs, propLoop rec bP cP ctx qs = some (.ok fs) →
      ∀ f ∈ fs, headedBy (ctx ++ ".") f := by
  intro qs
  induction qs with
  | nil =>
    intro fs h f hf
    have : fs = [] := by simpa [propLoop, okF] using h.symm
    subst this
    simp at hf
  | cons q rest ih =>
    intro fs h f hf
    rw [propLoop] at h
    obtain ⟨bv, hbv, h⟩ := withE_ok h
    obtain ⟨cv, hcv, h⟩ := withE_ok h
    obtain ⟨a, b, ha, hb, hab⟩ := catF_ok h
    subst hab
    rcases List.mem_append.mp hf with hf | hf
    · exact headedBy_append_extend (pyStr q) (hrec _ _ _ _ ha f hf)
    · exact ih b hb f hf

/-- Findings of the object-like block carry the context `ctx`. -/
theorem objBlock_headed {rec : Json → Json → String → CmpRes} {b c : Json} {ctx : String}
    (hrec : ∀ x y t fs, rec x y t = some (.ok fs) → ∀ f ∈ fs, headedBy t f) :
    ∀ fs, objBlock rec b c ctx = some (.ok fs) → ∀ f ∈ fs, headedBy ctx f := by
  intro fs h f hf
  unfold objBlock at h
  by_cases hcond : (pyEq (b.jGet "type") (.str "object") || b.hasKey "properties") = true
  swap
  · rw [if_neg hcond] at h
    have : fs = [] := by simpa [okF] using h.symm
    subst this
    simp at hf
  rw [if_pos hcond] at h
  obtain ⟨reqRem, hreq, h⟩ := withE_ok h
  obtain ⟨remProps, hrem, h⟩ := withE_ok h
  obtain ⟨common, hcommon, h⟩ := withE_ok h
  obtain ⟨a, b2, ha, hb2, hab⟩ := catF_ok h
  subst hab
  rcases List.mem_append.mp hf with hf | hf
  · have ha2 : a = (if reqRem.isEmpty then []
        else [ctx ++ ": required fields removed: " ++ pyRepr (.arr reqRem)])
      ++ (if remProps.isEmpty then []
        else [ctx ++ ": response properties removed: " ++ pyRepr (.arr remProps)]) := by
      simpa [okF] using ha.symm
    subst ha2
    rcases List.mem_append.mp hf with hf | hf
    · split at hf
      · simp at hf
      · have hfe : f = ctx ++ ": required fields removed: " ++ pyRepr (.arr reqRem) := by
          simpa using hf
        subst hfe
        exact headedBy_extend_right _ (headedBy_append ctx _)
    · split at hf
      · simp at hf
      · have hfe : f = ctx ++ ": response properties removed: " ++ pyRepr (.arr remProps) := by
          simpa using hf
        subst hfe
        exact headedBy_extend_right _ (headedBy_append ctx _)
  · exact headedBy_append_extend "." (propLoop_headed hrec common b2 hb2 f hf)

/-- Findings of the array block carry the context `ctx`. -/
theorem arrBlock_headed {rec : Json → Json → String → CmpRes} {b c : Json} {ctx : String}
    (hrec : ∀ x y t fs, rec x y t = some (.ok fs) → ∀ f ∈ fs, headedBy t f) :
    ∀ fs, arrBlock rec b c ctx = some (.ok fs) → ∀ f ∈ fs, headedBy ctx f := by
  intro fs h f hf
  unfold arrBlock at h
  by_cases hcond :
      (pyEq (b.jGet "type") (.str "array") && pyEq (c.jGet "type") (.str "array")) = true
  · rw [if_pos hcond] at h
    exact headedBy_append_extend "[]" (hrec _ _ _ _ h f hf)
  · rw [if_neg hcond] at h
    have : fs = [] := by simpa [okF] using h.symm
    subst this
    simp at hf

/-- Every finding of `schema_breaks` starts with its context string. -/
theorem schema_breaks_headed :
    ∀ fuel bs cs bd cd ctx fs, schema_breaks fuel bs cs bd cd ctx = some (.ok fs) →
      ∀ f ∈ fs, headedBy ctx f := by
  intro fuel
  induction fuel with
  | zero =>
    intro bs cs bd cd ctx fs h
    simp [schema_breaks] at h
  | succ n ih =>
    intro bs cs bd cd ctx fs h f hf
    rw [schema_breaks] at h
    rcases hrb : resolve_ref (n+1) (Json.pyOr bs (.obj [])) bd [] with _ | b
    · rw [hrb] at h; simp at h
    rw [hrb] at h
    rcases hrc : resolve_ref (n+1) (Json.pyOr cs (.obj [])) cd [] with _ | c
    · rw [hrc] at h; simp at h
    rw [hrc] at h
    dsimp only at h
    have hrec : ∀ x y t fs2, schema_breaks n x y bd cd t = some (.ok fs2) →
        ∀ g ∈ fs2, headedBy t g := fun x y t fs2 hx => ih x y bd cd t fs2 hx
    by_cases hobj : (b.isObj && c.isObj) = true
    swap
    · rw [Bool.eq_false_iff.mpr hobj] at h
      simp only [Bool.not_false, if_true] at h
      have : fs = [] := by simpa [okF] using h.symm
      subst this
      simp at hf
    rw [hobj] at h
    rw [if_neg (by simp)] at h
    by_cases htype : ((b.jGet "type").truthy && (c.jGet "type").truthy
        && !pyEq (b.jGet "type") (c.jGet "type")) = true
    · rw [if_pos htype] at h
      have : fs = [ctx ++ ": schema type changed from " ++ pyStr (b.jGet "type")
          ++ " to " ++ pyStr (c.jGet "type")] := by simpa [okF] using h.symm
      subst this
      have hfe : f = ctx ++ ": schema type changed from " ++ pyStr (b.jGet "type")
          ++ " to " ++ pyStr (c.jGet "type") := by simpa using hf
      subst hfe
      exact headedBy_extend_right _ (headedBy_extend_right _
        (headedBy_extend_right _ (headedBy_append ctx _)))
    rw [if_neg htype] at h
    obtain ⟨enumRem, henum, h⟩ := withE_ok h
    obtain ⟨a, b2, ha, hb2, hab⟩ := catF_ok h
    obtain ⟨a3, a4, ha3, ha4, hab2⟩ := catF_ok hb2
    subst hab
    subst hab2
    rcases List.mem_append.mp hf with hf | hf
    · have ha2 : a = (if enumRem.isEmpty then []
          else [ctx ++ ": enum values removed: " ++ pyRepr (.arr enumRem)]) := by
        simpa [okF] using ha.symm
      subst ha2
      split at hf
      · simp at hf
      · have hfe : f = ctx ++ ": enum values removed: " ++ pyRepr (.arr enumRem) := by
          simpa using hf
        subst hfe
        exact headedBy_extend_right _ (headedBy_append ctx _)
    rcases List.mem_append.mp hf with hf | hf
    · exact objBlock_headed hrec a3 ha3 f hf
    · exact arrBlock_headed hrec a4 ha4 f hf

/-! ### C8: monotonic additions -/

theorem pyDedupAux_complete {x : Json} :
    ∀ {seen xs : List Json}, x ∈ xs →
      (∃ y ∈ seen, pyEq y x = true) ∨ ∃ y ∈ pyDedupAux seen xs, pyEq y x = true := by
  intro seen xs
  induction xs generalizing seen with
  | nil => intro h; simp at h
  | cons z rest ih =>
    intro h
    rw [pyDedupAux]
    by_cases hz : (seen.any fun y => pyEq y z) = true
    · rw [if_pos hz]
      rcases List.mem_cons.mp h with hh | hh
      · subst hh
        rcases List.any_eq_true.mp hz with ⟨y, hy1, hy2⟩
        exact .inl ⟨y, hy1, hy2⟩
      · exact ih hh
    · rw [if_neg hz]
      rcases List.mem_cons.mp h with hh | hh
      · subst hh
        exact .inr ⟨x, by simp, pyEq_refl x⟩
      · rcases @ih (z :: seen) hh with ⟨y, hy1, hy2⟩ | ⟨y, hy1, hy2⟩
        · rcases List.mem_cons.mp hy1 with hz2 | hz2
          · subst hz2
            exact .inr ⟨y, by simp, hy2⟩
          · exact .inl ⟨y, hz2, hy2⟩
        · exact .inr ⟨y, by simp [hy1], hy2⟩

theorem pyDedup_complete {x : Json} {xs : List Json} (h : x ∈ xs) :
    ∃ y ∈ pyDedup xs, pyEq y x = true := by
  rcases @pyDedupAux_complete _ [] _ h with ⟨y, hy1, _⟩ | hy
  · simp at hy1
  · exact hy

/-- The set difference is empty when every member of the left set has a
Python-equal member on the right. -/
theorem pyDiff_nil {xs ys : List Json} (h : ∀ x ∈ xs, ∃ y ∈ ys, pyEq x y = true) :
    pyDiff xs ys = [] := by
  refine List.filter_eq_nil_iff.mpr (fun x hx => ?_)
  obtain ⟨y, hy1, hy2⟩ := h x hx
  simp only [Bool.not_eq_true', Bool.not_eq_false]
  exact List.any_eq_true.mpr ⟨y, hy1, hy2⟩

theorem requiredRemoved_nil {b c : Json} {br cr : List Json}
    (hbr : pySet (Json.pyOr (b.jGet "required") (.arr [])) = .ok br)
    (hcr : pySet (Json.pyOr (c.jGet "required") (.arr [])) = .ok cr)
    (hsub : ∀ x ∈ br, ∃ y ∈ cr, pyEq x y = true) :
    requiredRemoved b c = .ok [] := by
  unfold requiredRemoved
  rw [hbr, hcr]
  simp [bind, Except.bind, pyDiff_nil hsub, sortedE_nil]

theorem str_mem_dedup_keys {es : List (String × Json)} {s : String}
    (h : s ∈ es.map Prod.fst) :
    ∃ y ∈ pyDedup (es.map (fun e => Json.str e.1)), pyEq (Json.str s) y = true := by
  have hx : Json.str s ∈ es.map (fun e => Json.str e.1) := by
    rcases List.mem_map.mp h with ⟨e, he, hee⟩
    exact List.mem_map.mpr ⟨e, he, by rw [hee]⟩
  obtain ⟨y, hy1, hy2⟩ := pyDedup_complete hx
  refine ⟨y, hy1, ?_⟩
  obtain ⟨t, hyt, _⟩ := dedup_keys_str hy1
  subst hyt
  rw [pyEq_str_iff] at hy2 ⊢
  have : t = s := by simpa using hy2
  simp [this]

theorem propsRemoved_nil {b c : Json} {esb esc : List (String × Json)}
    (hbp : propsOf b = .obj esb) (hcp : propsOf c = .obj esc)
    (hkeys : ∀ s ∈ esb.map Prod.fst, s ∈ esc.map Prod.fst) :
    propsRemoved b c = .ok [] := by
  unfold propsRemoved
  rw [hbp, hcp, pySet_obj_ok esb, pySet_obj_ok esc]
  have hsub : ∀ x ∈ pyDedup (esb.map (fun e => Json.str e.1)),
      ∃ y ∈ pyDedup (esc.map (fun e => Json.str e.1)), pyEq x y = true := by
    intro x hx
    obtain ⟨s, hxs, hsk⟩ := dedup_keys_str hx
    subst hxs
    exact str_mem_dedup_keys (hkeys s hsk)
  simp [bind, Except.bind, pyDiff_nil hsub, sortedE_nil]

theorem propsCommon_ok {b c : Json} {esb esc : List (String × Json)}
    (hbp : propsOf b = .obj esb) (hcp : propsOf c = .obj esc) :
    ∃ l, propsCommon b c = .ok l := by
  obtain ⟨l, hl, _⟩ := propsCommon_wf hbp hcp
  exact ⟨l, hl⟩

/-- A string headed by `ctx ++ q` is not headed by `ctx ++ p` when `p` and
`q` disagree at some character. -/
theorem not_headedBy_of_headed {ctx p q f : String}
    (hq : headedBy (ctx ++ q) f) {i : Nat}
    (hip : i < p.data.length) (hiq : i < q.data.length)
    (hne : p.data.get ⟨i, hip⟩ ≠ q.data.get ⟨i, hiq⟩) :
    ¬ headedBy (ctx ++ p) f := by
  obtain ⟨t, ht⟩ := hq
  have hfe : f = ctx ++ q ++ String.mk t := by
    have h2 : f.data = (ctx ++ q ++ String.mk t).data := by
      simpa [List.append_assoc] using ht
    calc f = String.mk f.data := rfl
    _ = String.mk (ctx ++ q ++ String.mk t).data := by rw [h2]
    _ = ctx ++ q ++ String.mk t := rfl
  rw [hfe]
  exact not_headedBy_of_mismatch hip hiq hne

/-- C8 amended: under monotonic additions — the current schema's
`properties` keys include the base's and every base `required` member is
present in the current `required` set — `schema_breaks` emits no
required-fields-removed and no properties-removed finding at the pair's
own context `ctx`.  (Recursion into shared properties can still produce
such findings at strictly longer contexts `ctx.name`, which is what the
counterexample exhibits.) -/
theorem schema_breaks_monotonic_silent_at_ctx (fuel : Nat) (bs cs bd cd : Json)
    (ctx : String) (b c : Json) (br cr : List Json) (esb esc : List (String × Json))
    (fs : List String)
    (hrun : schema_breaks (fuel+1) bs cs bd cd ctx = some (.ok fs))
    (hb : resolve_ref (fuel+1) (Json.pyOr bs (.obj [])) bd [] = some b)
    (hc : resolve_ref (fuel+1) (Json.pyOr cs (.obj [])) cd [] = some c)
    (hbr : pySet (Json.pyOr (b.jGet "required") (.arr [])) = .ok br)
    (hcr : pySet (Json.pyOr (c.jGet "required") (.arr [])) = .ok cr)
    (hreq : ∀ x ∈ br, ∃ y ∈ cr, pyEq x y = true)
    (hbp : propsOf b = .obj esb) (hcp : propsOf c = .obj esc)
    (hkeys : ∀ s ∈ esb.map Prod.fst, s ∈ esc.map Prod.fst) :
    ∀ f ∈ fs, ¬ headedBy (ctx ++ ": required fields removed:") f
      ∧ ¬ headedBy (ctx ++ ": response properties removed:") f := by
  intro f hf
  rw [schema_breaks, hb, hc] at hrun
  dsimp only at hrun
  by_cases hobj : (b.isObj && c.isObj) = true
  swap
  · rw [Bool.eq_false_iff.mpr hobj] at hrun
    simp only [Bool.not_false, if_true] at hrun
    have : fs = [] := by simpa [okF] using hrun.symm
    subst this
    simp at hf
  rw [hobj] at hrun
  rw [if_neg (by simp)] at hrun
  by_cases htype : ((b.jGet "type").truthy && (c.jGet "type").truthy
      && !pyEq (b.jGet "type") (c.jGet "type")) = true
  · rw [if_pos htype] at hrun
    have hfs : fs = [ctx ++ ": schema type changed from " ++ pyStr (b.jGet "type")
        ++ " to " ++ pyStr (c.jGet "type")] := by simpa [okF] using hrun.symm
    subst hfs
    have hfe : f = ctx ++ ": schema type changed from " ++ pyStr (b.jGet "type")
        ++ " to " ++ pyStr (c.jGet "type") := by simpa using hf
    subst hfe
    have hhead : headedBy (ctx ++ ": schema type changed from ")
        (ctx ++ ": schema type changed from " ++ pyStr (b.jGet "type")
          ++ " to " ++ pyStr (c.jGet "type")) :=
      headedBy_extend_right _ (headedBy_extend_right _ (headedBy_append _ _))
    exact ⟨not_headedBy_of_headed hhead (i := 2) (by decide) (by decide) (by decide),
           not_headedBy_of_headed hhead (i := 2) (by decide) (by decide) (by decide)⟩
  rw [if_neg htype] at hrun
  obtain ⟨enumRem, henum, hrun⟩ := withE_ok hrun
  obtain ⟨em, rest1, hem, hrest1, hfs⟩ := catF_ok hrun
  obtain ⟨a3, a4, ha3, ha4, hrest⟩ := catF_ok hrest1
  subst hfs
  subst hrest
  rcases List.mem_append.mp hf with hf | hf
  · have hem2 : em = (if enumRem.isEmpty then []
        else [ctx ++ ": enum values removed: " ++ pyRepr (.arr enumRem)]) := by
      simpa [okF] using hem.symm
    subst hem2
    split at hf
    · simp at hf
    · have hfe : f = ctx ++ ": enum values removed: " ++ pyRepr (.arr enumRem) := by
        simpa using hf
      subst hfe
      have hhead : headedBy (ctx ++ ": enum values removed: ")
          (ctx ++ ": enum values removed: " ++ pyRepr (.arr enumRem)) :=
        headedBy_append _ _
      exact ⟨not_headedBy_of_headed hhead (i := 2) (by decide) (by decide) (by decide),
             not_headedBy_of_headed hhead (i := 2) (by decide) (by decide) (by decide)⟩
  rcases List.mem_append.mp hf with hf | hf
  · unfold objBlock at ha3
    by_cases hcond : (pyEq (b.jGet "type") (.str "object") || b.hasKey "properties") = true
    swap
    · rw [if_neg hcond] at ha3
      have : a3 = [] := by simpa [okF] using ha3.symm
      subst this
      simp at hf
    rw [if_pos hcond] at ha3
    rw [requiredRemoved_nil hbr hcr hreq] at ha3
    rw [show withE (Except.ok ([] : List Json)) = fun k => k [] from rfl] at ha3
    dsimp only at ha3
    rw [propsRemoved_nil hbp hcp hkeys] at ha3
    rw [show withE (Except.ok ([] : List Json)) = fun k => k [] from rfl] at ha3
    dsimp only [List.isEmpty_nil, if_true] at ha3
    obtain ⟨common, hcom⟩ := propsCommon_ok hbp hcp
    rw [hcom] at ha3
    rw [show withE (Except.ok common) = fun k => k common from rfl] at ha3
    dsimp only at ha3
    obtain ⟨z1, z2, hz1, hz2, hz⟩ := catF_ok ha3
    subst hz
    have hz1e : z1 = [] := by simpa [okF] using hz1.symm
    subst hz1e
    rw [List.nil_append] at hf
    have hheadf : headedBy (ctx ++ ".") f := by
      refine propLoop_headed ?_ common z2 hz2 f hf
      exact fun x y t fs2 hx => schema_breaks_headed fuel x y bd cd t fs2 hx
    exact ⟨not_headedBy_of_headed hheadf (i := 0) (by decide) (by decide) (by decide),
           not_headedBy_of_headed hheadf (i := 0) (by decide) (by decide) (by decide)⟩
  · unfold arrBlock at ha4
    by_cases hcond :
        (pyEq (b.jGet "type") (.str "array") && pyEq (c.jGet "type") (.str "array")) = true
    swap
    · rw [if_neg hcond] at ha4
      have : a4 = [] := by simpa [okF] using ha4.symm
      subst this
      simp at hf
    rw [if_pos hcond] at ha4
    have hheadf : headedBy (ctx ++ "[]") f :=
      schema_breaks_headed fuel _ _ bd cd _ a4 ha4 f hf
    exact ⟨not_headedBy_of_headed hheadf (i := 0) (by decide) (by decide) (by decide),
           not_headedBy_of_headed hheadf (i := 0) (by decide) (by decide) (by decide)⟩

/-- C8 counterexample: the two schemas are literally identical — so the
current `properties` is a superset of the base's and the `required` sets
are equal — yet the comparison still emits a required-fields-removed
finding (at the nested context `ctx.a`), because the shared property is a
`$ref` that resolves differently in the two documents. -/
theorem schema_breaks_monotonic_counterexample :
    schema_breaks 4
        (.obj [("type", .str "object"),
               ("properties", .obj [("a", .obj [("$ref", .str "#/D")])]),
               ("required", .arr [])])
        (.obj [("type", .str "object"),
               ("properties", .obj [("a", .obj [("$ref", .str "#/D")])]),
               ("required", .arr [])])
        (.obj [("D", .obj [("type", .str "object"), ("required", .arr [.str "x"])])])
        (.obj [("D", .obj [("type", .str "object"), ("required", .arr [])])])
        "ctx"
      = some (.ok ["ctx.a: required fields removed: ['x']"]) := rfl

/-- Witness for the amended C8: under a genuine monotonic addition the only
finding is the enum narrowing, and it is not a required-removed or
properties-removed finding at `c`. -/
theorem schema_breaks_monotonic_silent_at_ctx_witness :
    ¬ headedBy ("c" ++ ": required fields removed:") "c: enum values removed: ['b']"
      ∧ ¬ headedBy ("c" ++ ": response properties removed:") "c: enum values removed: ['b']" :=
  schema_breaks_monotonic_silent_at_ctx 1
    (.obj [("type", .str "object"), ("properties", .obj [("a", .obj [])]),
           ("required", .arr [.str "r"]), ("enum", .arr [.str "a", .str "b"])])
    (.obj [("type", .str "object"), ("properties", .obj [("a", .obj []), ("b", .obj [])]),
           ("required", .arr [.str "r"]), ("enum", .arr [.str "a"])])
    (.obj []) (.obj []) "c" _ _ [.str "r"] [.str "r"]
    [("a", .obj [])] [("a", .obj []), ("b", .obj [])]
    ["c: enum values removed: ['b']"]
    rfl rfl rfl rfl rfl (by decide) rfl rfl (by decide)
    "c: enum values removed: ['b']" (by simp)

/-! ### C9 and C10: document-level comparison

First: no finding produced by the shared-path loop can collide with a
`Removed path:` message, because every message family starts with a
distinct literal — and schema-finding contexts start with an upper-cased
HTTP method, which never begins with `R`. -/

theorem toNat_charOfNat {n : Nat} (h : n < 55296) : (Char.ofNat n).toNat = n := by
  unfold Char.ofNat
  rw [dif_pos (Or.inl h)]
  simp [Char.ofNatAux, Char.toNat, UInt32.toNat]

theorem char_toNat_le_iff {a b : Char} : a ≤ b ↔ a.toNat ≤ b.toNat := by
  rw [Char.le_def, UInt32.le_def, BitVec.le_def]
  exact Iff.rfl

theorem char_eq_of_toNat_eq {a b : Char} (h : a.toNat = b.toNat) : a = b := by
  apply Char.eq_of_val_eq
  exact UInt32.toNat.inj h

/-- An upper-casing that lands on `R` must come from `r` or `R`. -/
theorem charUpper_R {c : Char} (h : charUpper c = 'R') : charLower c = 'r' := by
  unfold charUpper at h
  by_cases hc : ('a' ≤ c && c ≤ 'z') = true
  · rw [if_pos hc] at h
    obtain ⟨h1, h2⟩ := Bool.and_eq_true .. ▸ hc
    have hle : 97 ≤ c.toNat := by
      have := char_toNat_le_iff.mp (of_decide_eq_true h1)
      simpa using this
    have hge : c.toNat ≤ 122 := by
      have := char_toNat_le_iff.mp (of_decide_eq_true h2)
      simpa using this
    have hval : (Char.ofNat (c.toNat - 32)).toNat = c.toNat - 32 :=
      toNat_charOfNat (by omega)
    have hR : c.toNat - 32 = 82 := by
      have := congrArg Char.toNat h
      rw [hval] at this
      simpa using this
    have hc114 : c.toNat = 114 := by omega
    have hcr : c = 'r' := char_eq_of_toNat_eq (by rw [hc114]; rfl)
    subst hcr
    rfl
  · rw [if_neg hc] at h
    subst h
    rfl

/-- Two strings whose heads disagree at some character are different. -/
theorem ne_of_heads {a b s t : String} (hs : headedBy a s) (ht : headedBy b t)
    {i : Nat} (hia : i < a.data.length) (hib : i < b.data.length)
    (hne : a.data.get ⟨i, hia⟩ ≠ b.data.get ⟨i, hib⟩) : s ≠ t := by
  intro he
  obtain ⟨u, hu⟩ := hs
  obtain ⟨v, hv⟩ := ht
  have hdata : a.data ++ u = b.data ++ v := by
    rw [← hu, ← hv, he]
  have e1 : (a.data ++ u)[i]? = a.data[i]? := List.getElem?_append_left hia
  have e2 : (b.data ++ v)[i]? = b.data[i]? := List.getElem?_append_left hib
  rw [hdata, e2] at e1
  rw [List.getElem?_eq_getElem hib, List.getElem?_eq_getElem hia] at e1
  exact hne (by simpa using e1.symm)

/-- The upper-cased form of any recognized HTTP-method key starts with a
letter other than `R`. -/
theorem pyUpper_head_ne_R {m : String} (h : httpMethods.contains (pyLower m) = true) :
    ∃ c rest, (pyUpper m).data = c :: rest ∧ c ≠ 'R' := by
  have hmem : pyLower m ∈ httpMethods := by
    simpa using h
  match hm : m.data with
  | [] =>
    exfalso
    have : pyLower m = "" := by
      show String.mk (m.data.map charLower) = ""
      rw [hm]
      rfl
    rw [this] at hmem
    simp [httpMethods] at hmem
  | c :: cs =>
    have hlow : (pyLower m).data = charLower c :: cs.map charLower := by
      show (m.data.map charLower) = _
      rw [hm]
      rfl
    have hup : (pyUpper m).data = charUpper c :: cs.map charUpper := by
      show (m.data.map charUpper) = _
      rw [hm]
      rfl
    refine ⟨charUpper c, cs.map charUpper, hup, fun hcR => ?_⟩
    have hlr : charLower c = 'r' := charUpper_R hcR
    simp only [httpMethods, List.mem_cons, List.not_mem_nil, or_false] at hmem
    rcases hmem with hh | hh | hh | hh | hh | hh | hh | hh <;>
    · have := congrArg String.data hh
      rw [hlow] at this
      simp [hlr] at this

/-- A string whose first character is not `R` is no `Removed path:`
message. -/
theorem ne_removedPath_of_head {f : String} {c : Char} {l : List Char}
    (hf : f.data = c :: l) (hc : c ≠ 'R') (q : String) :
    f ≠ "Removed path: " ++ q := by
  intro he
  have hd := congrArg String.data he
  rw [hf] at hd
  have h2 : ("Removed path: " ++ q).data = 'R' :: ("emoved path: ".data ++ q.data) := rfl
  rw [h2] at hd
  exact hc (List.cons.injEq .. ▸ hd).1

/-- A string headed by a literal that disagrees with `Removed path: `
somewhere is no `Removed path:` message. -/
theorem ne_removedPath_of_headed {f lit : String} (hf : headedBy lit f) {i : Nat}
    (hia : i < lit.data.length) (hib : i < "Removed path: ".data.length)
    (hne : lit.data.get ⟨i, hia⟩ ≠ "Removed path: ".data.get ⟨i, hib⟩) (q : String) :
    f ≠ "Removed path: " ++ q :=
  ne_of_heads hf (headedBy_append _ _) hia hib hne

/-- Findings of the media-type loop never collide with a `Removed path:`
message: schema findings start with the upper-cased method. -/
theorem mediaLoop_no_removedPath {fuel : Nat} {bd cd bContent cContent : Json}
    {m : String} {p : Json} {code : String}
    (hm : httpMethods.contains (pyLower m) = true) :
    ∀ mts fs, mediaLoop fuel bd cd bContent cContent m p code mts = some (.ok fs) →
      ∀ f ∈ fs, ∀ q, f ≠ "Removed path: " ++ q := by
  intro mts
  induction mts with
  | nil =>
    intro fs h f hf q
    have : fs = [] := by simpa [mediaLoop, okF] using h.symm
    subst this
    simp at hf
  | cons mt rest ih =>
    intro fs h f hf q
    rw [mediaLoop] at h
    obtain ⟨x1, _, h⟩ := withE_ok h
    obtain ⟨x2, _, h⟩ := withE_ok h
    obtain ⟨x3, _, h⟩ := withE_ok h
    obtain ⟨x4, _, h⟩ := withE_ok h
    obtain ⟨a, b, ha, hb, hab⟩ := catF_ok h
    subst hab
    rcases List.mem_append.mp hf with hf | hf
    · have hhead := schema_breaks_headed fuel _ _ bd cd _ a ha f hf
      have hcup : headedBy (pyUpper m) f :=
        headedBy_append_extend _ (headedBy_append_extend _ (headedBy_append_extend _
          (headedBy_append_extend _ (headedBy_append_extend _ (headedBy_append_extend _
            (headedBy_append_extend _ hhead))))))
      obtain ⟨c0, rest0, hup, hcne⟩ := pyUpper_head_ne_R hm
      obtain ⟨u, hu⟩ := hcup
      have hfd : f.data = c0 :: (rest0 ++ u) := by
        rw [hu, hup]
        rfl
      exact ne_removedPath_of_head hfd hcne q
    · exact ih b hb f hf q

/-- Findings of the response-code loop never collide with a `Removed
path:` message. -/
theorem codeLoop_no_removedPath {fuel : Nat} {bd cd bResponses cResponses : Json}
    {m : String} {p : Json}
    (hm : httpMethods.contains (pyLower m) = true) :
    ∀ codes fs, codeLoop fuel bd cd bResponses cResponses m p codes = some (.ok fs) →
      ∀ f ∈ fs, ∀ q, f ≠ "Removed path: " ++ q := by
  intro codes
  induction codes with
  | nil =>
    intro fs h f hf q
    have : fs = [] := by simpa [codeLoop, okF] using h.symm
    subst this
    simp at hf
  | cons code rest ih =>
    intro fs h f hf q
    rw [codeLoop] at h
    obtain ⟨x1, _, h⟩ := withE_ok h
    obtain ⟨x2, _, h⟩ := withE_ok h
    obtain ⟨x3, _, h⟩ := withE_ok h
    obtain ⟨x4, _, h⟩ := withE_ok h
    obtain ⟨x5, _, h⟩ := withE_ok h
    obtain ⟨x6, _, h⟩ := withE_ok h
    obtain ⟨removedMedia, _, h⟩ := withE_ok h
    obtain ⟨sharedMedia, _, h⟩ := withE_ok h
    obtain ⟨a, b, ha, hb, hab⟩ := catF_ok h
    obtain ⟨b1, b2, hb1, hb2, hbb⟩ := catF_ok hb
    subst hab
    subst hbb
    rcases List.mem_append.mp hf with hf | hf
    · have ha2 : a = removedMedia.map (fun mt =>
          "Removed response media type " ++ pyStr mt ++ " for " ++ pyUpper m ++ " "
            ++ pyStr p ++ " " ++ code) := by simpa [okF] using ha.symm
      subst ha2
      obtain ⟨mt, _, hfe⟩ := List.mem_map.mp hf
      subst hfe
      exact ne_removedPath_of_headed
        (headedBy_extend_right _ (headedBy_extend_right _ (headedBy_extend_right _
        (headedBy_extend_right _ (headedBy_extend_right _ (headedBy_extend_right _
        (headedBy_append _ _)))))))
        (i := 8) (by decide) (by decide) (by decide) q
    rcases List.mem_append.mp hf with hf | hf
    · exact mediaLoop_no_removedPath hm sharedMedia b1 hb1 f hf q
    · exact ih b2 hb2 f hf q

/-- Findings for one shared operation never collide with a `Removed path:`
message. -/
theorem perOpF_no_removedPath {fuel : Nat} {bd cd b c : Json} {m : String} {p : Json}
    (hm : httpMethods.contains (pyLower m) = true) :
    ∀ fs, perOpF fuel bd cd b c m p = some (.ok fs) →
      ∀ f ∈ fs, ∀ q, f ≠ "Removed path: " ++ q := by
  intro fs h f hf q
  rw [perOpF] at h
  obtain ⟨cParams, _, h⟩ := withE_ok h
  obtain ⟨bParams, _, h⟩ := withE_ok h
  obtain ⟨newReq, _, h⟩ := withE_ok h
  obtain ⟨bRB, _, h⟩ := withE_ok h
  obtain ⟨bReqd, _, h⟩ := withE_ok h
  obtain ⟨cRB, _, h⟩ := withE_ok h
  obtain ⟨cReqd, _, h⟩ := withE_ok h
  obtain ⟨bResponsesRaw, _, h⟩ := withE_ok h
  obtain ⟨bCodes, _, h⟩ := withE_ok h
  obtain ⟨cResponsesRaw, _, h⟩ := withE_ok h
  obtain ⟨cCodes, _, h⟩ := withE_ok h
  obtain ⟨a, b2, ha, hb2, hab⟩ := catF_ok h
  subst hab
  rcases List.mem_append.mp hf with hf | hf
  · have ha2 : a = newReq.map (fun q2 =>
        "Added required parameter on " ++ pyUpper m ++ " " ++ pyStr p ++ ": "
          ++ pyStr q2.1 ++ ":" ++ pyStr q2.2)
      ++ (if !bReqd.truthy && cReqd.truthy then
            ["Request body became required: " ++ pyUpper m ++ " " ++ pyStr p] else [])
      ++ ((sortStr (strDiff ((bCodes.filter (fun s => strStartsWith s "2")).dedup)
            ((cCodes.filter (fun s => strStartsWith s "2")).dedup))).map (fun code =>
          "Removed success response " ++ code ++ " on " ++ pyUpper m ++ " " ++ pyStr p)) := by
      simpa [okF] using ha.symm
    subst ha2
    rcases List.mem_append.mp hf with hf | hf
    rcases List.mem_append.mp hf with hf | hf
    · obtain ⟨q2, _, hfe⟩ := List.mem_map.mp hf
      subst hfe
      exact ne_removedPath_of_headed
        (headedBy_extend_right _ (headedBy_extend_right _ (headedBy_extend_right _
        (headedBy_extend_right _ (headedBy_extend_right _ (headedBy_extend_right _
        (headedBy_append _ _)))))))
        (i := 0) (by decide) (by decide) (by decide) q
    · split at hf
      swap
      · simp at hf
      have hfe : f = "Request body became required: " ++ pyUpper m ++ " " ++ pyStr p := by
        simpa using hf
      subst hfe
      exact ne_removedPath_of_headed
        (headedBy_extend_right _ (headedBy_extend_right _ (headedBy_append _ _)))
        (i := 2) (by decide) (by decide) (by decide) q
    · obtain ⟨code, _, hfe⟩ := List.mem_map.mp hf
      subst hfe
      exact ne_removedPath_of_headed
        (headedBy_extend_right _ (headedBy_extend_right _ (headedBy_extend_right _
        (headedBy_extend_right _ (headedBy_append _ _)))))
        (i := 8) (by decide) (by decide) (by decide) q
  · exact codeLoop_no_removedPath hm _ b2 hb2 f hf q

/-- Decomposition of `opsOf`. -/
theorem opsOf_ok {item : Json} {ops : List (String × Json)} (h : opsOf item = .ok ops) :
    ∃ es, pyItems item = .ok es
      ∧ ops = es.filter (fun kv => httpMethods.contains (pyLower kv.1)) := by
  unfold opsOf at h
  match hi : pyItems item with
  | .error e => rw [hi] at h; simp [Except.map] at h
  | .ok es =>
    rw [hi] at h
    refine ⟨es, rfl, ?_⟩
    simpa [Except.map] using h.symm

/-- Every method key surviving the vocabulary filter lower-cases into the
vocabulary. -/
theorem sharedMethods_vocab {bOps cOps : List (String × Json)} {item : Json}
    (hb : opsOf item = .ok bOps) {m : String} (hm : m ∈ sharedMethods bOps cOps) :
    httpMethods.contains (pyLower m) = true := by
  obtain ⟨es, _, hfil⟩ := opsOf_ok hb
  unfold sharedMethods at hm
  have hm2 : m ∈ strInter (bOps.map Prod.fst).dedup (cOps.map Prod.fst).dedup :=
    mem_sortLe.mp hm
  have hm3 : m ∈ (bOps.map Prod.fst).dedup := (List.mem_filter.mp hm2).1
  have hm4 : m ∈ bOps.map Prod.fst := List.mem_dedup.mp hm3
  obtain ⟨kv, hkv, hkm⟩ := List.mem_map.mp hm4
  rw [hfil] at hkv
  have := (List.mem_filter.mp hkv).2
  rw [hkm] at this
  exact this

/-- Findings of the shared-operation loop never collide with a `Removed
path:` message. -/
theorem opLoop_no_removedPath {fuel : Nat} {bd cd : Json} {bOps cOps : List (String × Json)}
    {p : Json} :
    ∀ ms, (∀ m ∈ ms, httpMethods.contains (pyLower m) = true) →
    ∀ fs, opLoop fuel bd cd bOps cOps p ms = some (.ok fs) →
      ∀ f ∈ fs, ∀ q, f ≠ "Removed path: " ++ q := by
  intro ms
  induction ms with
  | nil =>
    intro _ fs h f hf q
    have : fs = [] := by simpa [opLoop, okF] using h.symm
    subst this
    simp at hf
  | cons m rest ih =>
    intro hvocab fs h f hf q
    rw [opLoop] at h
    obtain ⟨a, b, ha, hb, hab⟩ := catF_ok h
    subst hab
    rcases List.mem_append.mp hf with hf | hf
    · exact perOpF_no_removedPath (hvocab m (by simp)) a ha f hf q
    · exact ih (fun m2 hm2 => hvocab m2 (by simp [hm2])) b hb f hf q

/-- Findings for one shared path never collide with a `Removed path:`
message. -/
theorem perPathF_no_removedPath {fuel : Nat} {bd cd bp cp p : Json} :
    ∀ fs, perPathF fuel bd cd bp cp p = some (.ok fs) →
      ∀ f ∈ fs, ∀ q, f ≠ "Removed path: " ++ q := by
  intro fs h f hf q
  rw [perPathF] at h
  obtain ⟨bItem, _, h⟩ := withE_ok h
  obtain ⟨bOps, hbo, h⟩ := withE_ok h
  obtain ⟨cItem, _, h⟩ := withE_ok h
  obtain ⟨cOps, _, h⟩ := withE_ok h
  obtain ⟨a, b, ha, hb, hab⟩ := catF_ok h
  subst hab
  rcases List.mem_append.mp hf with hf | hf
  · have ha2 : a = (removedMethods bOps cOps).map (fun meth =>
        "Removed operation: " ++ pyUpper meth ++ " " ++ pyStr p) := by
      simpa [okF] using ha.symm
    subst ha2
    obtain ⟨meth, _, hfe⟩ := List.mem_map.mp hf
    subst hfe
    exact ne_removedPath_of_headed
      (headedBy_extend_right _ (headedBy_extend_right _ (headedBy_append _ _)))
      (i := 8) (by decide) (by decide) (by decide) q
  · exact opLoop_no_removedPath (sharedMethods bOps cOps)
      (fun m hm => sharedMethods_vocab hbo hm) b hb f hf q

/-- Findings of the shared-path loop never collide with a `Removed path:`
message. -/
theorem pathLoop_no_removedPath {fuel : Nat} {bd cd bp cp : Json} :
    ∀ ps fs, pathLoop fuel bd cd bp cp ps = some (.ok fs) →
      ∀ f ∈ fs, ∀ q, f ≠ "Removed path: " ++ q := by
  intro ps
  induction ps with
  | nil =>
    intro fs h f hf q
    have : fs = [] := by simpa [pathLoop, okF] using h.symm
    subst this
    simp at hf
  | cons p rest ih =>
    intro fs h f hf q
    rw [pathLoop] at h
    obtain ⟨a, b, ha, hb, hab⟩ := catF_ok h
    subst hab
    rcases List.mem_append.mp hf with hf | hf
    · exact perPathF_no_removedPath a ha f hf q
    · exact ih b hb f hf q

theorem pyDedupAux_not_seen {y : Json} :
    ∀ {seen xs : List Json}, y ∈ pyDedupAux seen xs →
      ∀ z ∈ seen, pyEq z y = false := by
  intro seen xs
  induction xs generalizing seen with
  | nil => intro h; simp [pyDedupAux] at h
  | cons x rest ih =>
    intro h z hz
    rw [pyDedupAux] at h
    by_cases hx : (seen.any fun w => pyEq w x) = true
    · rw [if_pos hx] at h
      exact ih h z hz
    · rw [if_neg hx] at h
      rcases List.mem_cons.mp h with hh | hh
      · subst hh
        refine Bool.eq_false_iff.mpr (fun habs => hx ?_)
        exact List.any_eq_true.mpr ⟨z, hz, habs⟩
      · exact ih hh z (by simp [hz])

theorem pyDedupAux_pairwise :
    ∀ (seen xs : List Json),
      List.Pairwise (fun a b => pyEq a b = false) (pyDedupAux seen xs) := by
  intro seen xs
  induction xs generalizing seen with
  | nil => simp [pyDedupAux]
  | cons x rest ih =>
    rw [pyDedupAux]
    by_cases hx : (seen.any fun w => pyEq w x) = true
    · rw [if_pos hx]
      exact ih seen
    · rw [if_neg hx]
      refine List.Pairwise.cons (fun y hy => ?_) (ih (x :: seen))
      exact pyDedupAux_not_seen hy x (by simp)

/-- A predicate true of exactly the one element `.str p` of a deduplicated
all-string list counts to one. -/
theorem countP_eq_one_str {p : String} :
    ∀ {l : List Json} {φ : Json → Bool},
      List.Pairwise (fun a b => pyEq a b = false) l →
      Json.str p ∈ l → (∀ y ∈ l, (φ y = true ↔ y = Json.str p)) →
      l.countP φ = 1 := by
  intro l
  induction l with
  | nil => intro φ _ hx; simp at hx
  | cons a l2 ih =>
    intro φ hpair hx hiff
    obtain ⟨hpa, hp2⟩ := List.pairwise_cons.mp hpair
    by_cases hφa : φ a = true
    · have haeq : a = Json.str p := (hiff a (by simp)).mp hφa
      subst haeq
      rw [List.countP_cons_of_pos _ _ hφa]
      have hz : l2.countP φ = 0 := by
        rw [List.countP_eq_zero]
        intro y hy hφy
        have hyeq : y = Json.str p := (hiff y (by simp [hy])).mp hφy
        have := hpa y hy
        rw [hyeq] at this
        rw [pyEq_refl] at this
        exact Bool.true_eq_false ▸ this
      rw [hz]
    · rw [List.countP_cons_of_neg _ _ (by simpa using hφa)]
      have hx2 : Json.str p ∈ l2 := by
        rcases List.mem_cons.mp hx with hh | hh
        · exfalso
          exact hφa ((hiff a (by simp)).mpr hh.symm)
        · exact hh
      exact ih hp2 hx2 (fun y hy => hiff y (by simp [hy]))

theorem str_append_cancel {a s t : String} (h : a ++ s = a ++ t) : s = t := by
  have hd := congrArg String.data h
  have h2 : a.data ++ s.data = a.data ++ t.data := hd
  have h3 : s.data = t.data := List.append_cancel_left h2
  calc s = String.mk s.data := rfl
  _ = String.mk t.data := by rw [h3]
  _ = t := rfl

/-- The removed-path message list computed from dicts of paths. -/
theorem removedPathList_obj (bPs cPs : List (String × Json)) :
    removedPathList (.obj bPs) (.obj cPs)
      = .ok (sortLe pyLeB (pyDiff (pyDedup (bPs.map (fun e => Json.str e.1)))
          (pyDedup (cPs.map (fun e => Json.str e.1))))) := by
  unfold removedPathList
  rw [pySet_obj_ok, pySet_obj_ok]
  have hcmp : allPairsComparable (pyDiff (pyDedup (bPs.map (fun e => Json.str e.1)))
      (pyDedup (cPs.map (fun e => Json.str e.1)))) = true := by
    refine allPairs_str (fun y hy => ?_)
    obtain ⟨s, hs, _⟩ := dedup_keys_str (mem_pyDiff hy)
    exact ⟨s, hs⟩
  simp [bind, Except.bind, sortedE_ok_of hcmp]

theorem sharedPathList_obj (bPs cPs : List (String × Json)) :
    sharedPathList (.obj bPs) (.obj cPs)
      = .ok (sortLe pyLeB (pyInter (pyDedup (bPs.map (fun e => Json.str e.1)))
          (pyDedup (cPs.map (fun e => Json.str e.1))))) := by
  unfold sharedPathList
  rw [pySet_obj_ok, pySet_obj_ok]
  have hcmp : allPairsComparable (pyInter (pyDedup (bPs.map (fun e => Json.str e.1)))
      (pyDedup (cPs.map (fun e => Json.str e.1)))) = true := by
    refine allPairs_str (fun y hy => ?_)
    obtain ⟨s, hs, _⟩ := dedup_keys_str (mem_pyInter hy)
    exact ⟨s, hs⟩
  simp [bind, Except.bind, sortedE_ok_of hcmp]

/-- C9: a path present in the base document's paths but absent from the
current document's yields exactly one `Removed path:` finding in the whole
output, and the shared-path loop (the only source of operation-level
findings) never visits it. -/
theorem compareDocs_removed_path (fuel : Nat) (base curr : Json)
    (bPs cPs : List (String × Json)) (p : String) (fs : List String)
    (hrun : compareDocs fuel base curr = some (.ok fs))
    (hbp : pyDictGetD base "paths" (.obj []) = .ok (.obj bPs))
    (hcp : pyDictGetD curr "paths" (.obj []) = .ok (.obj cPs))
    (hp : p ∈ bPs.map Prod.fst) (hnp : p ∉ cPs.map Prod.fst) :
    fs.count ("Removed path: " ++ p) = 1
      ∧ ∃ sl, sharedPathList (.obj bPs) (.obj cPs) = .ok sl ∧ Json.str p ∉ sl := by
  unfold compareDocs at hrun
  rw [hbp] at hrun
  rw [show withE (Except.ok (Json.obj bPs)) = fun k => k (Json.obj bPs) from rfl] at hrun
  dsimp only at hrun
  rw [hcp] at hrun
  rw [show withE (Except.ok (Json.obj cPs)) = fun k => k (Json.obj cPs) from rfl] at hrun
  dsimp only at hrun
  rw [removedPathList_obj] at hrun
  rw [show withE (Except.ok (sortLe pyLeB (pyDiff (pyDedup (bPs.map (fun e => Json.str e.1)))
        (pyDedup (cPs.map (fun e => Json.str e.1))))))
      = fun k => k (sortLe pyLeB (pyDiff (pyDedup (bPs.map (fun e => Json.str e.1)))
        (pyDedup (cPs.map (fun e => Json.str e.1))))) from rfl] at hrun
  dsimp only at hrun
  rw [sharedPathList_obj] at hrun
  rw [show withE (Except.ok (sortLe pyLeB (pyInter (pyDedup (bPs.map (fun e => Json.str e.1)))
        (pyDedup (cPs.map (fun e => Json.str e.1))))))
      = fun k => k (sortLe pyLeB (pyInter (pyDedup (bPs.map (fun e => Json.str e.1)))
        (pyDedup (cPs.map (fun e => Json.str e.1))))) from rfl] at hrun
  dsimp only at hrun
  obtain ⟨a, rest, ha, hrest, hfs⟩ := catF_ok hrun
  subst hfs
  have ha2 : a = (sortLe pyLeB (pyDiff (pyDedup (bPs.map (fun e => Json.str e.1)))
      (pyDedup (cPs.map (fun e => Json.str e.1))))).map
        (fun q => "Removed path: " ++ pyStr q) := by
    simpa [okF] using ha.symm
  subst ha2
  have hmemb : Json.str p ∈ pyDedup (bPs.map (fun e => Json.str e.1)) := by
    have h0 : Json.str p ∈ bPs.map (fun e => Json.str e.1) := by
      rcases List.mem_map.mp hp with ⟨e, he, hee⟩
      exact List.mem_map.mpr ⟨e, he, by rw [hee]⟩
    obtain ⟨y, hy, hyeq⟩ := pyDedup_complete h0
    obtain ⟨t, hyt, _⟩ := dedup_keys_str hy
    subst hyt
    rw [pyEq_str_iff] at hyeq
    have : t = p := by simpa using hyeq
    subst this
    exact hy
  have hnc : ∀ z ∈ pyDedup (cPs.map (fun e => Json.str e.1)),
      pyEq (Json.str p) z = false := by
    intro z hz
    obtain ⟨t, hzt, htk⟩ := dedup_keys_str hz
    subst hzt
    rw [pyEq_str_iff]
    refine Bool.eq_false_iff.mpr (fun habs => hnp ?_)
    have : p = t := by simpa using habs
    subst this
    exact htk
  constructor
  · rw [List.count_append]
    have hrest0 : ("Removed path: " ++ p) ∉ rest := by
      intro habs
      exact pathLoop_no_removedPath _ rest hrest _ habs p rfl
    rw [List.count_eq_zero.mpr hrest0]
    rw [List.count_eq_countP, List.countP_map]
    rw [(sortLe_perm pyLeB _).countP_eq]
    unfold pyDiff
    rw [List.countP_filter, Nat.add_zero]
    refine countP_eq_one_str (pyDedupAux_pairwise [] _) hmemb ?_
    intro y hy
    simp only [Function.comp]
    obtain ⟨s, hys, _⟩ := dedup_keys_str hy
    subst hys
    constructor
    · intro hφ
      obtain ⟨h1, _⟩ := Bool.and_eq_true .. ▸ hφ
      have h2 : ("Removed path: " ++ pyStr (Json.str s)) = ("Removed path: " ++ p) := by
        simpa using h1
      have h3 : pyStr (Json.str s) = p := str_append_cancel h2
      have h4 : s = p := h3
      rw [h4]
    · intro hy2
      have hsp : s = p := by
        have := congrArg (fun j => match j with | Json.str t => t | _ => "") hy2
        simpa using this
      subst hsp
      refine Bool.and_eq_true .. ▸ ⟨by simp [pyStr], ?_⟩
      simp only [Bool.not_eq_true']
      refine Bool.eq_false_iff.mpr (fun habs => ?_)
      rcases List.any_eq_true.mp habs with ⟨z, hz1, hz2⟩
      rw [hnc z hz1] at hz2
      exact Bool.false_ne_true hz2
  · refine ⟨_, sharedPathList_obj bPs cPs, fun habs => ?_⟩
    have h1 : Json.str p ∈ pyInter (pyDedup (bPs.map (fun e => Json.str e.1)))
        (pyDedup (cPs.map (fun e => Json.str e.1))) := mem_sortLe.mp habs
    have h2 := (List.mem_filter.mp h1).2
    rcases List.any_eq_true.mp h2 with ⟨z, hz1, hz2⟩
    rw [hnc z hz1] at hz2
    exact Bool.false_ne_true hz2

/-- Witness for C9: removing `/b` yields exactly the one `Removed path:`
finding and `/b` is not among the shared paths. -/
theorem compareDocs_removed_path_witness :
    (["Removed path: /b"].count ("Removed path: " ++ "/b") = 1)
      ∧ ∃ sl, sharedPathList
          (.obj [("/a", .obj [("get", .obj [])]), ("/b", .obj [])])
          (.obj [("/a", .obj [("get", .obj [])])]) = .ok sl
        ∧ Json.str "/b" ∉ sl :=
  compareDocs_removed_path 2
    (.obj [("paths", .obj [("/a", .obj [("get", .obj [])]), ("/b", .obj [])])])
    (.obj [("paths", .obj [("/a", .obj [("get", .obj [])])])])
    [("/a", .obj [("get", .obj [])]), ("/b", .obj [])]
    [("/a", .obj [("get", .obj [])])]
    "/b" ["Removed path: /b"] rfl rfl rfl (by decide) (by decide)

/-- Each path of the shared loop contributes all its findings to the
loop's output. -/
theorem pathLoop_mem {fuel : Nat} {bd cd bp cp : Json} :
    ∀ ps rest, pathLoop fuel bd cd bp cp ps = some (.ok rest) →
      ∀ p ∈ ps, ∃ fsp, perPathF fuel bd cd bp cp p = some (.ok fsp)
        ∧ ∀ f ∈ fsp, f ∈ rest := by
  intro ps
  induction ps with
  | nil =>
    intro rest h p hp
    simp at hp
  | cons p2 rest2 ih =>
    intro rest h p hp
    rw [pathLoop] at h
    obtain ⟨a, b, ha, hb, hab⟩ := catF_ok h
    subst hab
    rcases List.mem_cons.mp hp with hh | hh
    · subst hh
      exact ⟨a, ha, fun f hf => List.mem_append.mpr (.inl hf)⟩
    · obtain ⟨fsp, h1, h2⟩ := ih b hb p hh
      exact ⟨fsp, h1, fun f hf => List.mem_append.mpr (.inr (h2 f hf))⟩

/-- C10: method keys are matched case-sensitively — a base operation keyed
`GET` with the current document keyed `get` produces the removed-operation
finding, and `GET` is not among the shared methods handed to the
shared-operation comparison. -/
theorem compareDocs_method_case (fuel : Nat) (base curr : Json)
    (bPs cPs : List (String × Json)) (p : String) (fs : List String)
    (bItem cItem : Json) (bOps cOps : List (String × Json))
    (hrun : compareDocs fuel base curr = some (.ok fs))
    (hbp : pyDictGetD base "paths" (.obj []) = .ok (.obj bPs))
    (hcp : pyDictGetD curr "paths" (.obj []) = .ok (.obj cPs))
    (hp : p ∈ bPs.map Prod.fst) (hpc : p ∈ cPs.map Prod.fst)
    (hbi : pySubscript (.obj bPs) (.str p) = .ok bItem)
    (hci : pySubscript (.obj cPs) (.str p) = .ok cItem)
    (hbo : opsOf bItem = .ok bOps)
    (hco2 : opsOf cItem = .ok cOps)
    (hin : "GET" ∈ (bOps.map Prod.fst).dedup)
    (hout : "GET" ∉ (cOps.map Prod.fst).dedup) :
    ("Removed operation: GET " ++ p) ∈ fs ∧ "GET" ∉ sharedMethods bOps cOps := by
  constructor
  swap
  · intro habs
    unfold sharedMethods at habs
    have h1 := mem_sortLe.mp habs
    exact hout (by simpa using (List.mem_filter.mp h1).2)
  unfold compareDocs at hrun
  rw [hbp] at hrun
  rw [show withE (Except.ok (Json.obj bPs)) = fun k => k (Json.obj bPs) from rfl] at hrun
  dsimp only at hrun
  rw [hcp] at hrun
  rw [show withE (Except.ok (Json.obj cPs)) = fun k => k (Json.obj cPs) from rfl] at hrun
  dsimp only at hrun
  rw [removedPathList_obj] at hrun
  rw [show withE (Except.ok (sortLe pyLeB (pyDiff (pyDedup (bPs.map (fun e => Json.str e.1)))
        (pyDedup (cPs.map (fun e => Json.str e.1))))))
      = fun k => k (sortLe pyLeB (pyDiff (pyDedup (bPs.map (fun e => Json.str e.1)))
        (pyDedup (cPs.map (fun e => Json.str e.1))))) from rfl] at hrun
  dsimp only at hrun
  rw [sharedPathList_obj] at hrun
  rw [show withE (Except.ok (sortLe pyLeB (pyInter (pyDedup (bPs.map (fun e => Json.str e.1)))
        (pyDedup (cPs.map (fun e => Json.str e.1))))))
      = fun k => k (sortLe pyLeB (pyInter (pyDedup (bPs.map (fun e => Json.str e.1)))
        (pyDedup (cPs.map (fun e => Json.str e.1))))) from rfl] at hrun
  dsimp only at hrun
  obtain ⟨a, rest, ha, hrest, hfs⟩ := catF_ok hrun
  subst hfs
  have hmemb : Json.str p ∈ pyDedup (bPs.map (fun e => Json.str e.1)) := by
    have h0 : Json.str p ∈ bPs.map (fun e => Json.str e.1) := by
      rcases List.mem_map.mp hp with ⟨e, he, hee⟩
      exact List.mem_map.mpr ⟨e, he, by rw [hee]⟩
    obtain ⟨y, hy, hyeq⟩ := pyDedup_complete h0
    obtain ⟨t, hyt, _⟩ := dedup_keys_str hy
    subst hyt
    rw [pyEq_str_iff] at hyeq
    have : t = p := by simpa using hyeq
    subst this
    exact hy
  have hmemc : ∃ z ∈ pyDedup (cPs.map (fun e => Json.str e.1)),
      pyEq (Json.str p) z = true := by
    have h0 : Json.str p ∈ cPs.map (fun e => Json.str e.1) := by
      rcases List.mem_map.mp hpc with ⟨e, he, hee⟩
      exact List.mem_map.mpr ⟨e, he, by rw [hee]⟩
    obtain ⟨y, hy, hyeq⟩ := pyDedup_complete h0
    refine ⟨y, hy, ?_⟩
    obtain ⟨t, hyt, _⟩ := dedup_keys_str hy
    subst hyt
    rw [pyEq_str_iff] at hyeq ⊢
    have h3 : t = p := by simpa using hyeq
    simp [h3]
  have hshared : Json.str p ∈ sortLe pyLeB
      (pyInter (pyDedup (bPs.map (fun e => Json.str e.1)))
        (pyDedup (cPs.map (fun e => Json.str e.1)))) := by
    refine mem_sortLe.mpr (List.mem_filter.mpr ⟨hmemb, ?_⟩)
    obtain ⟨z, hz1, hz2⟩ := hmemc
    exact List.any_eq_true.mpr ⟨z, hz1, hz2⟩
  obtain ⟨fsp, hper, hsub⟩ := pathLoop_mem _ rest hrest (Json.str p) hshared
  rw [perPathF, hbi] at hper
  rw [show withE (Except.ok bItem) = fun k => k bItem from rfl] at hper
  dsimp only at hper
  rw [hbo] at hper
  rw [show withE (Except.ok bOps) = fun k => k bOps from rfl] at hper
  dsimp only at hper
  rw [hci] at hper
  rw [show withE (Except.ok cItem) = fun k => k cItem from rfl] at hper
  dsimp only at hper
  rw [hco2] at hper
  rw [show withE (Except.ok cOps) = fun k => k cOps from rfl] at hper
  dsimp only at hper
  obtain ⟨a2, b2, ha2, hb2, hab2⟩ := catF_ok hper
  have hmsg : ("Removed operation: GET " ++ p) ∈ a2 := by
    have ha3 : a2 = (removedMethods bOps cOps).map (fun meth =>
        "Removed operation: " ++ pyUpper meth ++ " " ++ pyStr (Json.str p)) := by
      simpa [okF] using ha2.symm
    subst ha3
    have hrm : "GET" ∈ removedMethods bOps cOps := by
      unfold removedMethods
      refine mem_sortLe.mpr (List.mem_filter.mpr ⟨hin, ?_⟩)
      simpa using hout
    refine List.mem_map.mpr ⟨"GET", hrm, ?_⟩
    rfl
  have : ("Removed operation: GET " ++ p) ∈ fsp := by
    rw [hab2]
    exact List.mem_append.mpr (.inl hmsg)
  exact List.mem_append.mpr (.inr (hsub _ this))

/-- Witness for C10: path `/a` carries `GET` in the base and `get` in the
current document. -/
theorem compareDocs_method_case_witness :
    ("Removed operation: GET " ++ "/a") ∈ ["Removed operation: GET /a"]
      ∧ "GET" ∉ sharedMethods [("GET", Json.obj [])] [("get", Json.obj [])] :=
  compareDocs_method_case 2
    (.obj [("paths", .obj [("/a", .obj [("GET", .obj [])])])])
    (.obj [("paths", .obj [("/a", .obj [("get", .obj [])])])])
    [("/a", .obj [("GET", .obj [])])] [("/a", .obj [("get", .obj [])])]
    "/a" ["Removed operation: GET /a"]
    (.obj [("GET", .obj [])]) (.obj [("get", .obj [])])
    [("GET", .obj [])] [("get", .obj [])]
    rfl rfl rfl (by decide) (by decide) rfl rfl rfl rfl (by decide) (by decide)
